import Mathlib

/-!
Verification of the rave media protocol stack (RTP / RTSP / SDP).

The definitions below are shallow embeddings of the Rust sources of the
repository (crates rave_rtp, rave_rtsp, rave_sdp).  Bytes are modelled as
natural numbers below 256, byte strings as lists of naturals, machine
integers as naturals with explicit wrap-around where the source can
overflow, and fallible functions return Except values mirroring the source
error enums.  Rust panics (assertion failures, division or remainder by
zero) are modelled as an explicit outcome.
-/

namespace Rave

/-- Big-endian byte pair of a 16-bit value (bytes emitted by put_u16). -/
def put16 (n : Nat) : List Nat := [n / 256 % 256, n % 256]

/-- Big-endian bytes of a 32-bit value (bytes emitted by put_u32). -/
def put32 (n : Nat) : List Nat :=
  [n / 2 ^ 24 % 256, n / 2 ^ 16 % 256, n / 256 % 256, n % 256]

/-- Big-endian 16-bit read (get_u16). -/
def word16 (a b : Nat) : Nat := a * 256 + b

/-- Big-endian 32-bit read (get_u32). -/
def word32 (a b c d : Nat) : Nat := ((a * 256 + b) * 256 + c) * 256 + d

namespace Rtp

/-- rave_rtp::packet::Version. -/
inductive Version where
  | version1
  | version2
deriving DecidableEq, Repr

/-- Version::as_number. -/
def Version.asNumber : Version → Nat
  | .version1 => 1
  | .version2 => 2

/-- rave_rtp::packet::Extension. -/
structure Extension where
  profileIdentifier : Nat
  data : List Nat
deriving DecidableEq, Repr

/-- rave_rtp::packet::Header. -/
structure Header where
  version : Version
  padding : Bool
  marker : Bool
  payloadType : Nat
  sequenceNumber : Nat
  timestamp : Nat
  ssrc : Nat
  csrc : List Nat
  extension : Option Extension
deriving DecidableEq, Repr

/-- rave_rtp::packet::Packet. -/
structure Packet where
  header : Header
  payload : List Nat
deriving DecidableEq, Repr

/-- rave_rtp::error::Error (the variants reachable from the embedded code). -/
inductive Error where
  | versionUnknown (version : Nat)
  | csrcCountInvalid (count : Nat)
  | extensionLengthInvalid (len : Nat)
  | paddingLengthInvalid (paddingDivisor len : Nat)
  | notEnoughData (have' need : Nat)
  | packetSizeExceedsMtu (packet : Packet) (mtu : Nat)
  | h264NalUnitDataLengthInvalid (len : Nat)
  | h264NalUnitLengthTooSmall (len : Nat)
  | h264DepacketizationNalUnitTypeUnknown (nalUnitType : Nat)
  | h264DepacketizationNalUnitTypeUnsupported (nalUnitTypeName : List Char)
  | h264AggregationUnitHeaderInvalid (len : Nat)
  | h264AggregationUnitDataTooSmall (have' need : Nat)
  | h264FragmentationUnitHeaderInvalid (len : Nat)
  | h264FragmentedStateAlreadyStarted
  | h264FragmentedStateNeverStarted
deriving DecidableEq, Repr

/-- Packet::new clears the padding flag of the header it is given. -/
def Packet.new (header : Header) (payload : List Nat) : Packet :=
  ⟨{ header with padding := false }, payload⟩

/-- rave_rtp::packet::PacketPadded. -/
structure PacketPadded where
  packet : Packet
  paddingDivisor : Nat
deriving DecidableEq, Repr

/-- Packet::with_padding sets the header padding flag. -/
def Packet.withPadding (p : Packet) (paddingDivisor : Nat) : PacketPadded :=
  ⟨⟨{ p.header with padding := true }, p.payload⟩, paddingDivisor⟩

/-- Extension::serialized_len. -/
def Extension.serializedLen (e : Extension) : Nat := 4 + e.data.length * 4

/-- Header::serialized_len. -/
def Header.serializedLen (h : Header) : Nat :=
  12 + h.csrc.length * 4 +
    (match h.extension with
     | some e => e.serializedLen
     | none => 0)

/-- Packet::serialized_len. -/
def Packet.serializedLen (p : Packet) : Nat :=
  p.header.serializedLen + p.payload.length

/-- Extension::serialize (serialize.rs). -/
def Extension.serialize (e : Extension) : Except Error (List Nat) :=
  if e.data.length > 65535 then .error (.extensionLengthInvalid e.data.length)
  else .ok (put16 e.profileIdentifier ++ put16 e.data.length ++ (e.data.map put32).flatten)

/-- First serialized header byte: version | csrc_count | padding | extension
(the or-composition of serialize.rs). -/
def firstByte (ver : Version) (pad xflag : Bool) (csrcCount : Nat) : Nat :=
  (ver.asNumber <<< 6) ||| csrcCount ||| ((if pad then 1 else 0) <<< 5) |||
    ((if xflag then 1 else 0) <<< 4)

/-- Second serialized header byte: payload_type | marker. -/
def secondByte (payloadType : Nat) (marker : Bool) : Nat :=
  payloadType ||| ((if marker then 1 else 0) <<< 7)

/-- Header::serialize (serialize.rs): first byte V|CC|P|X, second byte PT|M,
then big-endian sequence number, timestamp, ssrc, the CSRC list and the
optional extension. -/
def Header.serialize (h : Header) : Except Error (List Nat) :=
  if h.csrc.length > 255 then .error (.csrcCountInvalid h.csrc.length)
  else
    let b0 := firstByte h.version h.padding h.extension.isSome h.csrc.length
    let b1 := secondByte h.payloadType h.marker
    match h.extension with
    | some e =>
      match e.serialize with
      | .error er => .error er
      | .ok extBytes =>
        .ok ([b0, b1] ++ put16 h.sequenceNumber ++ put32 h.timestamp ++ put32 h.ssrc ++
          (h.csrc.map put32).flatten ++ extBytes)
    | none =>
      .ok ([b0, b1] ++ put16 h.sequenceNumber ++ put32 h.timestamp ++ put32 h.ssrc ++
        (h.csrc.map put32).flatten)

/-- Outcome of a serialization that may panic in the source (assert! or
remainder by zero); ok/err mirror the Result, panicked the Rust abort. -/
inductive SerOutcome where
  | ok (bytes : List Nat)
  | err (e : Error)
  | panicked
deriving DecidableEq, Repr

/-- impl Serialize for Packet: asserts the padding bit is clear, then emits
the header followed by the payload. -/
def Packet.serializeUnpadded (p : Packet) : SerOutcome :=
  if p.header.padding then .panicked
  else
    match p.header.serialize with
    | .error e => .err e
    | .ok headerBytes => .ok (headerBytes ++ p.payload)

/-- serialize.rs::calculate_padding: divisor − (len mod divisor).  A zero
divisor makes the source compute len % 0, which aborts (none). -/
def calculatePadding (paddingDivisor len : Nat) : Option Nat :=
  if paddingDivisor = 0 then none
  else some (paddingDivisor - len % paddingDivisor)

/-- impl Serialize for PacketPadded: asserts the padding bit is set, then
delegates to Packet::serialize (which asserts it is clear), then appends
padding_len − 1 zero bytes and one final byte holding padding_len. -/
def PacketPadded.serialize (pp : PacketPadded) : SerOutcome :=
  if ¬ pp.packet.header.padding then .panicked
  else
    match pp.packet.serializeUnpadded with
    | .panicked => .panicked
    | .err e => .err e
    | .ok base =>
      match calculatePadding pp.paddingDivisor base.length with
      | none => .panicked
      | some paddingLen =>
        if paddingLen > 255 then .err (.paddingLengthInvalid pp.paddingDivisor base.length)
        else .ok (base ++ List.replicate (paddingLen - 1) 0 ++ [paddingLen])

/-- Version::try_from. -/
def Version.tryFrom (value : Nat) : Except Error Version :=
  match value with
  | 1 => .ok .version1
  | 2 => .ok .version2
  | _ => .error (.versionUnknown value)

/-- Read n big-endian 32-bit words from the byte list. -/
def takeWords : Nat → List Nat → Option (List Nat × List Nat)
  | 0, l => some ([], l)
  | n + 1, a :: b :: c :: d :: l =>
    match takeWords n l with
    | some (ws, rest) => some (word32 a b c d :: ws, rest)
    | none => none
  | _ + 1, _ => none

/-- Header::parse (parse.rs).  Returns the header and the unconsumed bytes. -/
def Header.parse (src : List Nat) : Except Error (Header × List Nat) :=
  if src.length < 12 then .error (.notEnoughData src.length 12)
  else
    match src with
    | b0 :: b1 :: s0 :: s1 :: t0 :: t1 :: t2 :: t3 :: w0 :: w1 :: w2 :: w3 :: rest =>
      match Version.tryFrom ((b0 >>> 6) &&& 0x03) with
      | .error e => .error e
      | .ok version =>
        let padding : Bool := decide (((b0 >>> 5) &&& 0x01) > 0)
        let hasExtension : Bool := decide (((b0 >>> 4) &&& 0x01) > 0)
        let csrcCount := b0 &&& 0x0f
        if src.length < 12 + csrcCount * 4 then
          .error (.notEnoughData src.length (12 + csrcCount * 4))
        else
          let marker : Bool := decide (((b1 >>> 7) &&& 0x01) > 0)
          let payloadType := b1 &&& 0x7f
          let sequenceNumber := word16 s0 s1
          let timestamp := word32 t0 t1 t2 t3
          let ssrc := word32 w0 w1 w2 w3
          match takeWords csrcCount rest with
          | none => .error (.notEnoughData rest.length (csrcCount * 4))
          | some (csrc, rest1) =>
            if hasExtension then
              if rest1.length < 4 then .error (.notEnoughData rest1.length 4)
              else
                match rest1 with
                | p0 :: p1 :: l0 :: l1 :: rest2 =>
                  let profileIdentifier := word16 p0 p1
                  let extLen := word16 l0 l1
                  if rest2.length < extLen * 4 then
                    .error (.notEnoughData rest2.length (extLen * 4))
                  else
                    match takeWords extLen rest2 with
                    | none => .error (.notEnoughData rest2.length (extLen * 4))
                    | some (dataWords, rest3) =>
                      .ok ({ version, padding, marker, payloadType, sequenceNumber,
                             timestamp, ssrc, csrc,
                             extension := some ⟨profileIdentifier, dataWords⟩ }, rest3)
                | _ => .error (.notEnoughData rest1.length 4)
            else
              .ok ({ version, padding, marker, payloadType, sequenceNumber, timestamp,
                     ssrc, csrc, extension := none }, rest1)
    | _ => .error (.notEnoughData src.length 12)

/-- The value ranges enforced by the Rust integer types of Header fields,
plus the layout limits of the wire format (at most 15 CSRC entries so the
count fits the low nibble, payload type within 7 bits, extension length
within 16 bits). -/
def Extension.Wf (e : Extension) : Prop :=
  e.profileIdentifier < 2 ^ 16 ∧ e.data.length ≤ 65535 ∧ ∀ w ∈ e.data, w < 2 ^ 32

instance (e : Extension) : Decidable (Extension.Wf e) := by
  unfold Extension.Wf
  exact inferInstance

def extensionOptWf : Option Extension → Prop
  | some e => e.Wf
  | none => True

instance : (o : Option Extension) → Decidable (extensionOptWf o)
  | some e => by simp only [extensionOptWf]; exact inferInstance
  | none => by simp only [extensionOptWf]; exact inferInstance

def Header.Wf (h : Header) : Prop :=
  h.payloadType ≤ 127 ∧ h.sequenceNumber < 2 ^ 16 ∧ h.timestamp < 2 ^ 32 ∧
    h.ssrc < 2 ^ 32 ∧ h.csrc.length ≤ 15 ∧ (∀ c ∈ h.csrc, c < 2 ^ 32) ∧
    extensionOptWf h.extension

instance (h : Header) : Decidable (Header.Wf h) := by
  unfold Header.Wf
  exact inferInstance

end Rtp

namespace H264

open Rtp

/-- packetization::common::PacketizationParameters. -/
structure PacketizationParameters where
  payloadType : Nat
  ssrc : Nat
  csrc : List Nat
  mtu : Option Nat
deriving DecidableEq, Repr

/-- packetization::common::Packetizer.  The random initial sequence number of
the source (rand::random::<u16>()) is taken as an argument. -/
structure Packetizer where
  header : Header
  headerSerializedLen : Nat
  sequenceNumber : Nat
  mtu : Option Nat
deriving DecidableEq, Repr

/-- Packetizer::new. -/
def Packetizer.new (payloadType ssrc : Nat) (csrc : List Nat) (mtu : Option Nat)
    (initialSequenceNumber : Nat) : Packetizer :=
  let header : Header :=
    { version := .version2, padding := false, marker := false, payloadType,
      sequenceNumber := 0, timestamp := 0, ssrc, csrc, extension := none }
  { header, headerSerializedLen := header.serializedLen,
    sequenceNumber := initialSequenceNumber % 2 ^ 16, mtu }

/-- Packetizer::from_packetization_parameters. -/
def Packetizer.fromPacketizationParameters (params : PacketizationParameters)
    (initialSequenceNumber : Nat) : Packetizer :=
  Packetizer.new params.payloadType params.ssrc params.csrc params.mtu initialSequenceNumber

/-- Packetizer::packetize: stamps marker, the next sequence number and the
timestamp onto the template header; errors when an MTU is configured and the
serialized length exceeds it.  The state with the advanced (wrapping)
sequence number is returned alongside the result. -/
def Packetizer.packetize (pz : Packetizer) (payload : List Nat) (timestamp : Nat)
    (marker : Bool) : Packetizer × Except Error Packet :=
  let header : Header :=
    { pz.header with
        marker := marker
        sequenceNumber := pz.sequenceNumber
        timestamp := timestamp }
  let packet := Packet.new header payload
  let pz' := { pz with sequenceNumber := (pz.sequenceNumber + 1) % 2 ^ 16 }
  match pz.mtu with
  | some mtu =>
    if packet.serializedLen > mtu then (pz', .error (.packetSizeExceedsMtu packet mtu))
    else (pz', .ok packet)
  | none => (pz', .ok packet)

/-- slice::chunks with chunk size k (k = 0 aborts in the source and is
modelled as producing no chunks; all call sites here use k ≥ 1).  The fuel
argument of the auxiliary function is an artifact; fuel ≥ length suffices. -/
def chunksOfAux (k : Nat) : Nat → List Nat → List (List Nat)
  | _, [] => []
  | 0, _ :: _ => []
  | fuel + 1, l => l.take k :: chunksOfAux k fuel (l.drop k)

def chunksOf (k : Nat) (l : List Nat) : List (List Nat) :=
  if k = 0 then [] else chunksOfAux k l.length l

/-- H264PacketizerMode1::payload_fragmented_unit_a.  The first produced byte
of every fragment is the source expression 28 & nal_ref_idc. -/
def payloadFragmentedUnitA (headerSerializedLen mtu : Nat)
    (nalUnit : List Nat) : List (List Nat) :=
  match nalUnit with
  | [] => []
  | nalUnitHeader :: stripped =>
    let fuPayloadMaxLen := mtu - (headerSerializedLen + 2)
    let nalUnitType := nalUnitHeader &&& 0x1f
    let nalRefIdc := nalUnitHeader &&& 0x60
    let chunks := chunksOf fuPayloadMaxLen stripped
    let chunksLen := chunks.length
    chunks.enum.map fun p =>
      let indicator := 28 &&& nalRefIdc
      let fuHeaderBase := nalUnitType
      let fuHeaderS := if p.1 = 0 then fuHeaderBase ||| 0x80 else fuHeaderBase
      let fuHeaderSE := if p.1 = chunksLen - 1 then fuHeaderS ||| 0x40 else fuHeaderS
      indicator :: fuHeaderSE :: p.2

/-- H264PacketizerMode1::payload_stap_a: for each NAL unit in order, a
big-endian 2-byte length followed by the NAL bytes.  (The source emits no
aggregation-header byte before the first length.) -/
def payloadStapA : List (List Nat) → Except Error (List Nat)
  | [] => .ok []
  | nalUnit :: rest =>
    if nalUnit.length > 65535 then .error (.h264NalUnitDataLengthInvalid nalUnit.length)
    else
      match payloadStapA rest with
      | .error e => .error e
      | .ok tail => .ok (put16 nalUnit.length ++ nalUnit ++ tail)

/-- H264PacketizerMode1::group_nal_units: greedy grouping; a NAL joins the
current group when header_len plus the summed sizes of the NALs already in
the group (2 + len each) does not exceed the MTU. -/
def groupNalUnits (headerSerializedLen mtu : Nat)
    (data : List (List Nat)) : List (List (List Nat)) :=
  (data.foldl
    (fun accRev nalUnit =>
      match accRev with
      | [] => [[nalUnit]]
      | currentGroup :: finished =>
        let combinedSize := headerSerializedLen +
          (currentGroup.map (fun u => 2 + u.length)).sum
        if combinedSize ≤ mtu then (currentGroup ++ [nalUnit]) :: finished
        else [nalUnit] :: currentGroup :: finished)
    []).reverse

/-- rave_rtp::packetization::h264::H264PacketizerMode1. -/
structure H264PacketizerMode1 where
  inner : Packetizer
  mtu : Option Nat
deriving DecidableEq, Repr

/-- H264PacketizerMode1::new. -/
def H264PacketizerMode1.new (params : PacketizationParameters)
    (initialSequenceNumber : Nat) : H264PacketizerMode1 :=
  { inner := Packetizer.fromPacketizationParameters params initialSequenceNumber,
    mtu := params.mtu }

/-- The fragment sub-loop of H264PacketizerMode1::packetize: one RTP packet
per FU-A payload, marker set on the last fragment of the last group. -/
def packetizeFragments (timestamp : Nat) (isLastGroup : Bool) :
    Packetizer → List (List Nat) → Packetizer × Except Error (List Packet)
  | inner, [] => (inner, .ok [])
  | inner, fragPayload :: rest =>
    let isLastFragment := rest.isEmpty
    let (inner1, r) := inner.packetize fragPayload timestamp (isLastGroup && isLastFragment)
    match r with
    | .error e => (inner1, .error e)
    | .ok pkt =>
      match packetizeFragments timestamp isLastGroup inner1 rest with
      | (inner2, .error e) => (inner2, .error e)
      | (inner2, .ok pkts) => (inner2, .ok (pkt :: pkts))

/-- The group loop of H264PacketizerMode1::packetize (MTU configured): a
one-element group that fits becomes a single NAL packet, a one-element group
that does not fit is fragmented into FU-A packets, a larger group becomes
one STAP-A-payload packet.  Marker set on packets of the last group (for
fragments only on the last one). -/
def packetizeGroups (timestamp mtu : Nat) :
    Packetizer → List (List (List Nat)) → Packetizer × Except Error (List Packet)
  | inner, [] => (inner, .ok [])
  | inner, group :: rest =>
    let isLastGroup := rest.isEmpty
    let (inner1, rhead) :=
      match group with
      | [singleNalUnit] =>
        if inner.headerSerializedLen + singleNalUnit.length ≤ mtu then
          let (i1, r) := inner.packetize singleNalUnit timestamp isLastGroup
          (i1, r.map fun p => [p])
        else
          packetizeFragments timestamp isLastGroup inner
            (payloadFragmentedUnitA inner.headerSerializedLen mtu singleNalUnit)
      | _ =>
        match payloadStapA group with
        | .error e => (inner, .error e)
        | .ok payload =>
          let (i1, r) := inner.packetize payload timestamp isLastGroup
          (i1, r.map fun p => [p])
    match rhead with
    | .error e => (inner1, .error e)
    | .ok headPkts =>
      match packetizeGroups timestamp mtu inner1 rest with
      | (inner2, .error e) => (inner2, .error e)
      | (inner2, .ok pkts) => (inner2, .ok (headPkts ++ pkts))

/-- H264PacketizerMode1::packetize.  Without an MTU the whole access unit is
aggregated into a single packet carrying the payload_stap_a bytes, marker
always set. -/
def H264PacketizerMode1.packetize (pz : H264PacketizerMode1) (data : List (List Nat))
    (timestamp : Nat) : H264PacketizerMode1 × Except Error (List Packet) :=
  match pz.mtu with
  | some mtu =>
    let groups := groupNalUnits pz.inner.headerSerializedLen mtu data
    let (inner', r) := packetizeGroups timestamp mtu pz.inner groups
    ({ pz with inner := inner' }, r)
  | none =>
    match payloadStapA data with
    | .error e => (pz, .error e)
    | .ok payload =>
      let (inner', r) := pz.inner.packetize payload timestamp true
      ({ pz with inner := inner' }, r.map fun p => [p])

/-- The STAP-A arm of H264Depacketizer::depacketize: repeatedly read a
2-byte big-endian length and that many NAL bytes.  The fuel argument is an
artifact; fuel ≥ length of the payload suffices (every iteration consumes
at least two bytes). -/
def stapASplit : Nat → List Nat → Except Error (List (List Nat))
  | _, [] => .ok []
  | 0, _ :: _ => .ok []
  | _ + 1, [_] => .error (.h264AggregationUnitHeaderInvalid 1)
  | fuel + 1, l0 :: l1 :: rest =>
    let nalUnitLength := word16 l0 l1
    if rest.length < nalUnitLength then
      .error (.h264AggregationUnitDataTooSmall rest.length nalUnitLength)
    else
      match stapASplit fuel (rest.drop nalUnitLength) with
      | .error e => .error e
      | .ok nals => .ok (rest.take nalUnitLength :: nals)

/-- H264Depacketizer::depacketize.  The state is the cross-packet fragment
buffer (fragmented_unit_buffer); the function returns the recovered NAL
units together with the new buffer state. -/
def depacketize (fragmentedUnitBuffer : Option (List Nat)) (packet : Packet) :
    Except Error (List (List Nat) × Option (List Nat)) :=
  if packet.payload.length ≤ 1 then .error (.h264NalUnitLengthTooSmall packet.payload.length)
  else
    match packet.payload with
    | [] => .error (.h264NalUnitLengthTooSmall 0)
    | b0 :: rest =>
      let nalUnitType := b0 &&& 0x1f
      if 1 ≤ nalUnitType ∧ nalUnitType ≤ 23 then
        .ok ([packet.payload], fragmentedUnitBuffer)
      else if nalUnitType = 24 then
        match stapASplit rest.length rest with
        | .error e => .error e
        | .ok nals => .ok (nals, fragmentedUnitBuffer)
      else if nalUnitType = 25 then
        .error (.h264DepacketizationNalUnitTypeUnsupported (("STAP-B").data))
      else if 26 ≤ nalUnitType ∧ nalUnitType ≤ 27 then
        .error (.h264DepacketizationNalUnitTypeUnsupported (("MTAP").data))
      else if nalUnitType = 28 then
        match rest with
        | [] => .error (.h264FragmentationUnitHeaderInvalid 0)
        | fragmentationUnitHeader :: fuPayload =>
          let start := (fragmentationUnitHeader &&& 0x80) > 0
          let end' := (fragmentationUnitHeader &&& 0x40) > 0
          let emit := fun (recovered : List Nat) (buffer' : Option (List Nat)) =>
            let nalRefIdc := nalUnitType &&& 0x60
            let newNalUnitType := (fragmentationUnitHeader &&& 0x1f) ||| nalRefIdc
            Except.ok ([newNalUnitType :: recovered], buffer')
          if start ∧ ¬ end' then
            match fragmentedUnitBuffer with
            | some _ => .error .h264FragmentedStateAlreadyStarted
            | none => .ok ([], some fuPayload)
          else if ¬ start ∧ ¬ end' then
            match fragmentedUnitBuffer with
            | some buf => .ok ([], some (buf ++ fuPayload))
            | none => .error .h264FragmentedStateNeverStarted
          else if ¬ start ∧ end' then
            match fragmentedUnitBuffer with
            | some buf => emit (buf ++ fuPayload) none
            | none => .error .h264FragmentedStateNeverStarted
          else
            emit fuPayload fragmentedUnitBuffer
      else if nalUnitType = 29 then
        .error (.h264DepacketizationNalUnitTypeUnsupported (("FU-B").data))
      else if 30 ≤ nalUnitType ∧ nalUnitType ≤ 31 then
        .ok ([], fragmentedUnitBuffer)
      else
        .error (.h264DepacketizationNalUnitTypeUnknown nalUnitType)

end H264

namespace Rtsp

/-- rave_rtsp::message::StatusCategory. -/
inductive StatusCategory where
  | informational
  | success
  | redirection
  | clientError
  | serverError
  | unknown
deriving DecidableEq, Repr

/-- Response::status (response.rs): category of a status code, derived by
decade with the source's guard order. -/
def statusCategory (s : Nat) : StatusCategory :=
  if 600 ≤ s then .unknown
  else if 500 ≤ s then .serverError
  else if 400 ≤ s then .clientError
  else if 300 ≤ s then .redirection
  else if 200 ≤ s then .success
  else if 100 ≤ s then .informational
  else .unknown

/-- The part of a response observed by Client::request: the status code and
the optional Location header value (headers.get of Location). -/
structure SimResponse (Loc : Type) where
  status : Nat
  location : Option Loc
deriving Repr

/-- The client errors reachable from the redirect loop of Client::request. -/
inductive ClientRequestError where
  | invalidRedirect
  | maximumNumberOfRedirectsReached
  | statusError (status : Nat)
deriving DecidableEq, Repr

/-- The redirect loop of Client::request (client.rs, for _request_count in
0..20).  The server behaviour is a function from the number of requests
already issued and the current request URI to the response;
rewriteUri models the substitution of the parsed Location value
(http::uri::PathAndQuery::parse and Uri::from_parts of the external http
crate) into the request URI, none meaning either parse failure.  The
returned number counts the requests issued. -/
def clientRequestLoop {Loc Uri : Type} (server : Nat → Uri → SimResponse Loc)
    (rewriteUri : Uri → Loc → Option Uri) :
    Nat → Nat → Uri → (Except ClientRequestError (SimResponse Loc)) × Nat
  | 0, counter, _ => (.error .maximumNumberOfRedirectsReached, counter)
  | fuel + 1, counter, uri =>
    let response := server counter uri
    match statusCategory response.status with
    | .success => (.ok response, counter + 1)
    | .redirection =>
      match response.location with
      | none => (.error .invalidRedirect, counter + 1)
      | some loc =>
        match rewriteUri uri loc with
        | none => (.error .invalidRedirect, counter + 1)
        | some uri' => clientRequestLoop server rewriteUri fuel (counter + 1) uri'
    | _ => (.error (.statusError response.status), counter + 1)

/-- Client::request: the loop is bounded at 20 iterations; falling out of
the loop yields MaximumNumberOfRedirectsReached. -/
def clientRequest {Loc Uri : Type} (server : Nat → Uri → SimResponse Loc)
    (rewriteUri : Uri → Loc → Option Uri) (uri : Uri) :
    (Except ClientRequestError (SimResponse Loc)) × Nat :=
  clientRequestLoop server rewriteUri 20 0 uri

/-! ### RTSP line buffer, headers and incremental message parser

Byte strings are lists of naturals; the Rust String values produced by
read_line are kept as their byte lists, with UTF-8 validity checked
explicitly.  Trimming is modelled on the ASCII whitespace characters
(the inputs of interest are ASCII; non-ASCII Unicode whitespace is not
modelled). -/

def LN : Nat := 10

def CR : Nat := 13

/-- buffer.rs::read_line: find the first CR, LF or CRLF terminator.  A lone
CR as the very last available byte does not terminate the line, because the
next byte could complete a CRLF.  Returns the line bytes and the rest after
the terminator, or none when no complete line is available. -/
def readLine : List Nat → Option (List Nat × List Nat)
  | [] => none
  | [x] => if x = LN then some ([], []) else none
  | x :: y :: rest =>
    if x = CR ∧ y = LN then some ([], rest)
    else if x = CR ∨ x = LN then some ([], y :: rest)
    else
      match readLine (y :: rest) with
      | some (line, r) => some (x :: line, r)
      | none => none

/-- Continuation byte of a UTF-8 sequence. -/
def utf8Cont (b : Nat) : Bool := decide (0x80 ≤ b ∧ b ≤ 0xBF)

/-- UTF-8 validity of a byte list (String::from_utf8 succeeds). -/
def utf8Valid : List Nat → Bool
  | [] => true
  | b :: rest =>
    if b ≤ 0x7F then utf8Valid rest
    else if 0xC2 ≤ b ∧ b ≤ 0xDF then
      match rest with
      | c1 :: rest' => utf8Cont c1 && utf8Valid rest'
      | [] => false
    else if b = 0xE0 then
      match rest with
      | c1 :: c2 :: rest' => decide (0xA0 ≤ c1 ∧ c1 ≤ 0xBF) && utf8Cont c2 && utf8Valid rest'
      | _ => false
    else if 0xE1 ≤ b ∧ b ≤ 0xEC then
      match rest with
      | c1 :: c2 :: rest' => utf8Cont c1 && utf8Cont c2 && utf8Valid rest'
      | _ => false
    else if b = 0xED then
      match rest with
      | c1 :: c2 :: rest' => decide (0x80 ≤ c1 ∧ c1 ≤ 0x9F) && utf8Cont c2 && utf8Valid rest'
      | _ => false
    else if 0xEE ≤ b ∧ b ≤ 0xEF then
      match rest with
      | c1 :: c2 :: rest' => utf8Cont c1 && utf8Cont c2 && utf8Valid rest'
      | _ => false
    else if b = 0xF0 then
      match rest with
      | c1 :: c2 :: c3 :: rest' =>
        decide (0x90 ≤ c1 ∧ c1 ≤ 0xBF) && utf8Cont c2 && utf8Cont c3 && utf8Valid rest'
      | _ => false
    else if 0xF1 ≤ b ∧ b ≤ 0xF3 then
      match rest with
      | c1 :: c2 :: c3 :: rest' => utf8Cont c1 && utf8Cont c2 && utf8Cont c3 && utf8Valid rest'
      | _ => false
    else if b = 0xF4 then
      match rest with
      | c1 :: c2 :: c3 :: rest' =>
        decide (0x80 ≤ c1 ∧ c1 ≤ 0x8F) && utf8Cont c2 && utf8Cont c3 && utf8Valid rest'
      | _ => false
    else false

/-- ASCII whitespace byte (the ASCII part of char::is_whitespace). -/
def isWsByte (b : Nat) : Bool := decide (b = 0x20 ∨ (0x09 ≤ b ∧ b ≤ 0x0D))

/-- str::trim on a byte list (ASCII whitespace). -/
def trimBytes (l : List Nat) : List Nat :=
  ((l.dropWhile isWsByte).reverse.dropWhile isWsByte).reverse

/-- The errors of rave_rtsp reachable from the embedded parser code.  The
metadata parse function of a concrete message type may use any of them. -/
inductive RtspError where
  | encoding
  | headerMalformed (line : List Nat)
  | contentLengthMissing
  | contentLengthNotInteger (value : List Nat)
  | headAlreadyDone
  | bodyAlreadyDone
  | metadataNotParsed
  | notDone
  | requestLineMalformed (line : List Nat)
deriving DecidableEq, Repr

/-- Strict lexicographic byte order (the Ord of Rust String restricted to
the keys we store). -/
def bytesLt : List Nat → List Nat → Bool
  | [], [] => false
  | [], _ :: _ => true
  | _ :: _, [] => false
  | a :: as', b :: bs' => if a < b then true else if b < a then false else bytesLt as' bs'

/-- message.rs::Headers is a BTreeMap<String, String>; modelled as an
association list kept strictly sorted by key.  Insert replaces the value
bound to an existing key. -/
abbrev Headers := List (List Nat × List Nat)

/-- BTreeMap::insert. -/
def headersInsert : Headers → List Nat → List Nat → Headers
  | [], k, v => [(k, v)]
  | (k', v') :: rest, k, v =>
    if k = k' then (k, v) :: rest
    else if bytesLt k k' then (k, v) :: (k', v') :: rest
    else (k', v') :: headersInsert rest k v

/-- BTreeMap::get. -/
def headersGet : Headers → List Nat → Option (List Nat)
  | [], _ => none
  | (k', v') :: rest, k => if k' = k then some v' else headersGet rest k

/-- Headers::contains. -/
def headersContains (hs : Headers) (k : List Nat) : Bool := (headersGet hs k).isSome

/-- str::split_once at a colon. -/
def splitOnceColon : List Nat → Option (List Nat × List Nat)
  | [] => none
  | b :: rest =>
    if b = 58 then some ([], rest)
    else
      match splitOnceColon rest with
      | some (before, after) => some (b :: before, after)
      | none => none

/-- parse.rs::parse_header: split the line at the first colon and trim both
sides. -/
def parseHeaderBytes (line : List Nat) : Except RtspError (List Nat × List Nat) :=
  match splitOnceColon line with
  | none => .error (.headerMalformed line)
  | some (var, val) => .ok (trimBytes var, trimBytes val)

/-- usize::from_str: optional leading plus sign, then one or more decimal
digits, rejecting values that overflow 64 bits. -/
def parseUsize (l : List Nat) : Option Nat :=
  let digits := match l with
    | 43 :: rest => rest
    | _ => l
  if digits = [] then none
  else if digits.all (fun b => decide (48 ≤ b ∧ b ≤ 57)) then
    let n := digits.foldl (fun acc b => acc * 10 + (b - 48)) 0
    if n < 2 ^ 64 then some n else none
  else none

/-- The key bytes of the Content-Length header. -/
def contentLengthKey : List Nat := (("Content-Length").toList.map Char.toNat)

/-- parse.rs::Head. -/
inductive HeadSt where
  | firstLine
  | header
  | headDone
deriving DecidableEq, Repr

/-- parse.rs::State (Body::Incomplete / Body::Complete are the two body
states; Head holds the head sub-state). -/
inductive ParserState where
  | head (h : HeadSt)
  | bodyIncomplete
  | bodyComplete
deriving DecidableEq, Repr

/-- parse.rs::Status. -/
inductive ParseStatus where
  | hungry
  | done
deriving DecidableEq, Repr

/-- parse.rs::Parser<M>, generic over the metadata type of the message. -/
structure Parser (μ : Type) where
  state : ParserState
  metadata : Option μ
  headers : Headers
  body : Option (List Nat)

/-- Parser::new. -/
def Parser.new {μ : Type} : Parser μ := ⟨.head .firstLine, none, [], none⟩

/-- Parser::parse_inner_head_line: trim, then dispatch on the head state;
the first line parses as metadata, further non-empty lines as headers, an
empty line ends the head. -/
def parseInnerHeadLine {μ : Type} (parseMeta : List Nat → Except RtspError μ)
    (metadata : Option μ) (headers : Headers) (line : List Nat) (h : HeadSt) :
    Except RtspError (Option μ × Headers × HeadSt) :=
  let t := trimBytes line
  match h with
  | .firstLine =>
    match parseMeta t with
    | .error e => .error e
    | .ok m => .ok (some m, headers, .header)
  | .header =>
    if t ≠ [] then
      match parseHeaderBytes t with
      | .error e => .error e
      | .ok (var, val) => .ok (metadata, headersInsert headers var val, .header)
    else .ok (metadata, headers, .headDone)
  | .headDone => .error .headAlreadyDone

/-- Parser::parse_inner_head: consume complete lines until the head is done
or no complete line is buffered.  String::from_utf8 failures surface as the
Encoding error.  The fuel argument is an artifact of the embedding; any
fuel greater than the buffer length gives the loop semantics. -/
def headLoop {μ : Type} (parseMeta : List Nat → Except RtspError μ) :
    Nat → Option μ → Headers → HeadSt → List Nat →
    Except RtspError (Option μ × Headers × HeadSt × List Nat)
  | 0, m, hs, h, b => .ok (m, hs, h, b)
  | fuel + 1, m, hs, h, b =>
    if h = .headDone then .ok (m, hs, h, b)
    else
      match readLine b with
      | none => .ok (m, hs, h, b)
      | some (lineBytes, rest) =>
        if utf8Valid lineBytes then
          match parseInnerHeadLine parseMeta m hs lineBytes h with
          | .error e => .error e
          | .ok (m', hs', h') => headLoop parseMeta fuel m' hs' h' rest
        else .error .encoding

/-- Parser::find_content_length. -/
def findContentLength (hs : Headers) : Except RtspError (Option Nat) :=
  match headersGet hs contentLengthKey with
  | some v =>
    match parseUsize v with
    | some n => .ok (some n)
    | none => .error (.contentLengthNotInteger v)
  | none => .ok none

/-- The Body::Incomplete arm of Parser::parse_inner: read the value of
Content-Length; when enough bytes are buffered, consume exactly that many
as the body.  The caller has already set the state to Body(Incomplete). -/
def bodyStep {μ : Type} (p : Parser μ) (b : List Nat) :
    Except RtspError (Parser μ × ParseStatus × List Nat) :=
  match findContentLength p.headers with
  | .error e => .error e
  | .ok none => .error .contentLengthMissing
  | .ok (some need) =>
    if need ≤ b.length then
      .ok ({ p with state := .bodyComplete, body := some (b.take need) }, .done, b.drop need)
    else
      .ok (p, .hungry, b)

/-- Parser::parse: run the head loop, transition to the body when the head
is done (Body(Incomplete) exactly when a Content-Length header is present),
and report Done when the state reached Body(Complete).  Calling parse again
on a finished parser fails with BodyAlreadyDone.  Returns the parser, the
status and the unconsumed bytes of the buffer. -/
def parseCall {μ : Type} (parseMeta : List Nat → Except RtspError μ)
    (p : Parser μ) (b : List Nat) :
    Except RtspError (Parser μ × ParseStatus × List Nat) :=
  match p.state with
  | .bodyComplete => .error .bodyAlreadyDone
  | .bodyIncomplete => bodyStep p b
  | .head h =>
    match headLoop parseMeta (b.length + 1) p.metadata p.headers h b with
    | .error e => .error e
    | .ok (m', hs', h', rest) =>
      if h' = .headDone then
        if headersContains hs' contentLengthKey then
          bodyStep { p with metadata := m', headers := hs', state := .bodyIncomplete } rest
        else
          .ok ({ p with metadata := m', headers := hs', state := .bodyComplete }, .done, rest)
      else
        .ok ({ p with metadata := m', headers := hs', state := .head h' }, .hungry, rest)

/-- Parser::into_message (the extracted message is the metadata, headers
and body triple). -/
def Parser.intoMessage {μ : Type} (p : Parser μ) :
    Except RtspError (μ × Headers × Option (List Nat)) :=
  match p.state with
  | .bodyComplete =>
    match p.metadata with
    | some m => .ok (m, p.headers, p.body)
    | none => .error .metadataNotParsed
  | _ => .error .notDone

/-- Feed a sequence of arrival chunks to one parser the way the callers of
Parser::parse do: the unconsumed leftover stays in the buffer and the next
chunk is appended to it.  Returns the status of every call, the final
parser and the final leftover. -/
def runChunksAux {μ : Type} (parseMeta : List Nat → Except RtspError μ) :
    Parser μ → List Nat → List (List Nat) →
    Except RtspError (List ParseStatus × Parser μ × List Nat)
  | p, leftover, [] => .ok ([], p, leftover)
  | p, leftover, chunk :: rest =>
    match parseCall parseMeta p (leftover ++ chunk) with
    | .error e => .error e
    | .ok (p', status, leftover') =>
      match runChunksAux parseMeta p' leftover' rest with
      | .error e => .error e
      | .ok (statuses, pf, lf) => .ok (status :: statuses, pf, lf)

/-- Feed the chunks to a fresh parser with an initially empty buffer. -/
def runChunks {μ : Type} (parseMeta : List Nat → Except RtspError μ)
    (chunks : List (List Nat)) :
    Except RtspError (List ParseStatus × Parser μ × List Nat) :=
  runChunksAux parseMeta Parser.new [] chunks

/-- Extract the key/value pair a line would contribute as a header line:
trim; an empty trimmed line contributes nothing (it ends the head), as does
a line that fails parse_header. -/
def headerLineKV (l : List Nat) : Option (List Nat × List Nat) :=
  let t := trimBytes l
  if t = [] then none
  else
    match parseHeaderBytes t with
    | .ok kv => some kv
    | .error _ => none

/-- Process a list of header lines through Parser::parse_inner_head_line in
the Header state (the driver corresponding to the header phase of the
parser; a line that ends or escapes the header phase is reported as
HeadAlreadyDone). -/
def processHeaderLines : Headers → List (List Nat) → Except RtspError Headers
  | hs, [] => .ok hs
  | hs, line :: rest =>
    match @parseInnerHeadLine Unit (fun _ => .ok ()) none hs line .header with
    | .error e => .error e
    | .ok (_, hs', .header) => processHeaderLines hs' rest
    | .ok (_, _, _) => .error .headAlreadyDone

/-- The value of the last occurrence of a key in a key/value list. -/
def lastVal : List (List Nat × List Nat) → List Nat → Option (List Nat)
  | [], _ => none
  | (k', v') :: rest, k =>
    match lastVal rest k with
    | some v => some v
    | none => if k' = k then some v' else none

/-- Number of entries of the header map bound to the given name. -/
def countKey (hs : Headers) (k : List Nat) : Nat := (hs.map Prod.fst).count k

/-- A concrete serialized message used to exercise the incremental parser:
a one-byte head line, a Content-Length header announcing three body bytes,
the empty line ending the head, and the three body bytes. -/
def cMsg : List Nat :=
  [77, 13, 10] ++ contentLengthKey ++ [58, 32, 51, 13, 10, 13, 10, 97, 98, 99]

/-- A metadata parse function that keeps the raw first line. -/
def cMeta : List Nat → Except RtspError (List Nat) := Except.ok

/-- A two-chunk partition of cMsg (splitting inside the header line). -/
def cChunks : List (List Nat) := [cMsg.take 5, cMsg.drop 5]

/-- The parser state after consuming all of cMsg. -/
def cFinal : Parser (List Nat) :=
  ⟨.bodyComplete, some [77], [(contentLengthKey, [51])], some [97, 98, 99]⟩

end Rtsp

namespace Sdp

/-! ### SDP model, parser pieces (rave_sdp::sdp)

Text is modelled as lists of characters.  Integer parsing mirrors the
FromStr implementations of the Rust integer types (optional sign, decimal
digits, range checked); unit-suffix time values mirror sdp.rs::parse_time.
Multiplication overflow of the suffix scaling is not modelled. -/

def splitChar (c : Char) : List Char → List (List Char)
  | [] => [[]]
  | x :: rest =>
    match splitChar c rest with
    | [] => [[]]
    | g :: gs => if x = c then [] :: g :: gs else (x :: g) :: gs

/-- White_Space characters in the ASCII range (str::trim). -/
def isWsChar (c : Char) : Bool :=
  decide (c = ' ' ∨ c = '\t' ∨ c = '\n' ∨ c = '\r' ∨ c = '\x0B' ∨ c = '\x0C')

def trimChars (l : List Char) : List Char :=
  ((l.dropWhile isWsChar).reverse.dropWhile isWsChar).reverse

def splitOnceChar (c : Char) : List Char → Option (List Char × List Char)
  | [] => none
  | x :: rest =>
    if x = c then some ([], rest)
    else
      match splitOnceChar c rest with
      | some (before, after) => some (x :: before, after)
      | none => none

def isDigitChar (c : Char) : Bool := decide ('0' ≤ c ∧ c ≤ '9')

def digitsToNat (l : List Char) : Nat :=
  l.foldl (fun acc c => acc * 10 + (c.toNat - 48)) 0

/-- u64::from_str (also usize on 64-bit): optional leading plus, decimal
digits, overflow rejected. -/
def parseU64 (l : List Char) : Option Nat :=
  let digits := match l with
    | '+' :: rest => rest
    | _ => l
  if digits = [] then none
  else if digits.all isDigitChar then
    let n := digitsToNat digits
    if n < 2 ^ 64 then some n else none
  else none

/-- i64::from_str: optional sign, decimal digits, range checked. -/
def parseI64 (l : List Char) : Option Int :=
  match l with
  | '-' :: rest =>
    if rest ≠ [] ∧ rest.all isDigitChar then
      let n := digitsToNat rest
      if n ≤ 2 ^ 63 then some (-(n : Int)) else none
    else none
  | '+' :: rest =>
    if rest ≠ [] ∧ rest.all isDigitChar then
      let n := digitsToNat rest
      if n < 2 ^ 63 then some (n : Int) else none
    else none
  | _ =>
    if l ≠ [] ∧ l.all isDigitChar then
      let n := digitsToNat l
      if n < 2 ^ 63 then some (n : Int) else none
    else none

/-- rave_sdp::error::Error (the variants reachable from Sdp::parse). -/
inductive Error where
  | linePrefixInvalid (line : List Char)
  | versionUnknown (version : List Char)
  | originLineInvalid (line : List Char)
  | connectionLineInvalid (line : List Char)
  | networkTypeUnknown (networkType : List Char)
  | addressTypeUnknown (addressType : List Char)
  | bandwidthLineMalformed (line : List Char)
  | bandwidthValueInvalid (bandwidth : List Char)
  | bandwidthTypeUnknown (bandwidthType : List Char)
  | timeMalformed (time : List Char)
  | timeDescriptionInvalid (time : List Char)
  | repeatTimesLineMalformed (line : List Char)
  | timeInvalid (time : List Char)
  | timeZoneAdjustmentsLineMalformed (line : List Char)
  | timeZoneAdjustmentTimeInvalid (time : List Char)
  | timezoneAdjustmentsWithoutRepeatTimes
  | kindUnknown (kind : List Char)
  | protocolUnknown (protocol : List Char)
  | mediaLineInvalid (line : List Char)
  | mediaPortInvalid (line : List Char)
  | mediaFormatInvalid (line : List Char)
  | directionUnknown (direction : List Char)
  | versionMissing
  | originMissing
  | sessionNameMissing
  | timeActiveMissing
  | connectionMissing
deriving DecidableEq, Repr

/-- sdp.rs::Version. -/
inductive SdpVersion where
  | v0
deriving DecidableEq, Repr

/-- Version::from_str. -/
def SdpVersion.fromStr (s : List Char) : Except Error SdpVersion :=
  if s = (("0").toList) then .ok .v0 else .error (.versionUnknown s)

/-- sdp.rs::NetworkType. -/
inductive NetworkType where
  | internet
deriving DecidableEq, Repr

/-- Display for NetworkType writes IN. -/
def NetworkType.display : NetworkType → List Char
  | .internet => (("IN").toList)

/-- NetworkType::from_str accepts only the string IP4. -/
def NetworkType.fromStr (s : List Char) : Except Error NetworkType :=
  if s = (("IP4").toList) then .ok .internet else .error (.networkTypeUnknown s)

/-- sdp.rs::AddressType. -/
inductive AddressType where
  | ipV4
  | ipV6
deriving DecidableEq, Repr

/-- AddressType::from_str. -/
def AddressType.fromStr (s : List Char) : Except Error AddressType :=
  if s = (("IP4").toList) then .ok .ipV4
  else if s = (("IP6").toList) then .ok .ipV6
  else .error (.addressTypeUnknown s)

/-- sdp.rs::Origin. -/
structure Origin where
  username : List Char
  sessionId : List Char
  sessionVersion : List Char
  networkType : NetworkType
  addressType : AddressType
  unicastAddress : List Char
deriving DecidableEq, Repr

/-- Origin::from_str: six space-separated fields. -/
def Origin.fromStr (s : List Char) : Except Error Origin :=
  match splitChar ' ' s with
  | username :: sessionId :: sessionVersion :: networkType :: addressType ::
      unicastAddress :: _ =>
    match NetworkType.fromStr networkType with
    | .error e => .error e
    | .ok nt =>
      match AddressType.fromStr addressType with
      | .error e => .error e
      | .ok at' => .ok ⟨username, sessionId, sessionVersion, nt, at', unicastAddress⟩
  | _ => .error (.originLineInvalid s)

/-- sdp.rs::Connection. -/
structure Connection where
  networkType : NetworkType
  addressType : AddressType
  address : List Char
deriving DecidableEq, Repr

/-- Connection::from_str: three space-separated fields. -/
def Connection.fromStr (s : List Char) : Except Error Connection :=
  match splitChar ' ' s with
  | networkType :: addressType :: address :: _ =>
    match NetworkType.fromStr networkType with
    | .error e => .error e
    | .ok nt =>
      match AddressType.fromStr addressType with
      | .error e => .error e
      | .ok at' => .ok ⟨nt, at', address⟩
  | _ => .error (.connectionLineInvalid s)

/-- sdp.rs::Bandwidth. -/
inductive Bandwidth where
  | conferenceTotal (kilobitrate : Nat)
  | applicationSpecific (kilobitrate : Nat)
deriving DecidableEq, Repr

/-- Bandwidth::from_str. -/
def Bandwidth.fromStr (s : List Char) : Except Error Bandwidth :=
  match splitOnceChar ':' s with
  | none => .error (.bandwidthLineMalformed s)
  | some (bandwidthType, bandwidth) =>
    if bandwidthType = (("CT").toList) then
      match parseU64 bandwidth with
      | some n => .ok (.conferenceTotal n)
      | none => .error (.bandwidthValueInvalid bandwidth)
    else if bandwidthType = (("AS").toList) then
      match parseU64 bandwidth with
      | some n => .ok (.applicationSpecific n)
      | none => .error (.bandwidthValueInvalid bandwidth)
    else .error (.bandwidthTypeUnknown bandwidthType)

/-- sdp.rs::TimeActive. -/
structure TimeActive where
  start : Nat
  stop : Nat
deriving DecidableEq, Repr

/-- TimeActive::from_str: split once at a space, both sides u64. -/
def TimeActive.fromStr (s : List Char) : Except Error TimeActive :=
  match splitOnceChar ' ' s with
  | none => .error (.timeMalformed s)
  | some (start, stop) =>
    match parseU64 start with
    | none => .error (.timeDescriptionInvalid start)
    | some a =>
      match parseU64 stop with
      | none => .error (.timeDescriptionInvalid stop)
      | some b => .ok ⟨a, b⟩

/-- sdp.rs::parse_time for u64: allow the unit suffixes s, m, h, d. -/
def parseTimeU64 (ts : List Char) : Except Error Nat :=
  let seconds := fun (ss : List Char) =>
    match parseU64 ss with
    | some n => Except.ok n
    | none => Except.error (Error.timeInvalid ss)
  match ts.getLast? with
  | some 's' => seconds (ts.dropLast)
  | some 'm' => (seconds (ts.dropLast)).map (· * 60)
  | some 'h' => (seconds (ts.dropLast)).map (· * 3600)
  | some 'd' => (seconds (ts.dropLast)).map (· * 86400)
  | _ => seconds ts

/-- sdp.rs::parse_time for i64 (timezone adjustment offsets are signed). -/
def parseTimeI64 (ts : List Char) : Except Error Int :=
  let seconds := fun (ss : List Char) =>
    match parseI64 ss with
    | some n => Except.ok n
    | none => Except.error (Error.timeInvalid ss)
  match ts.getLast? with
  | some 's' => seconds (ts.dropLast)
  | some 'm' => (seconds (ts.dropLast)).map (· * 60)
  | some 'h' => (seconds (ts.dropLast)).map (· * 3600)
  | some 'd' => (seconds (ts.dropLast)).map (· * 86400)
  | _ => seconds ts

/-- sdp.rs::RepeatTimes. -/
structure RepeatTimes where
  repeatInterval : Nat
  activeDuration : Nat
  offsets : List Nat
deriving DecidableEq, Repr

/-- Read the remaining offsets of an r= line. -/
def parseOffsets : List (List Char) → Except Error (List Nat)
  | [] => .ok []
  | offset :: rest =>
    match parseTimeU64 offset with
    | .error e => .error e
    | .ok n =>
      match parseOffsets rest with
      | .error e => .error e
      | .ok ns => .ok (n :: ns)

/-- RepeatTimes::from_str: three required time values then further offsets. -/
def RepeatTimes.fromStr (s : List Char) : Except Error RepeatTimes :=
  match splitChar ' ' s with
  | f1 :: f2 :: f3 :: rest =>
    match parseTimeU64 f1 with
    | .error e => .error e
    | .ok repeatInterval =>
      match parseTimeU64 f2 with
      | .error e => .error e
      | .ok activeDuration =>
        match parseTimeU64 f3 with
        | .error e => .error e
        | .ok offset0 =>
          match parseOffsets rest with
          | .error e => .error e
          | .ok more => .ok ⟨repeatInterval, activeDuration, offset0 :: more⟩
  | [_, _] => .error (.repeatTimesLineMalformed s)
  | [_] => .error (.repeatTimesLineMalformed s)
  | [] => .error (.repeatTimesLineMalformed s)

/-- sdp.rs::TimeZoneAdjustment. -/
structure TimeZoneAdjustment where
  time : Nat
  offset : Int
deriving DecidableEq, Repr

/-- TimeZoneAdjustment::from_time_and_offset_strings. -/
def TimeZoneAdjustment.fromStrings (time offset : List Char) :
    Except Error TimeZoneAdjustment :=
  match parseU64 time with
  | none => .error (.timeZoneAdjustmentTimeInvalid time)
  | some t =>
    match parseTimeI64 offset with
    | .error e => .error e
    | .ok o => .ok ⟨t, o⟩

/-- TimeZoneAdjustments::from_str: pairs of time and offset. -/
def parseTimeZoneAdjustments (s : List Char) : Except Error (List TimeZoneAdjustment) :=
  let rec go : List (List Char) → Except Error (List TimeZoneAdjustment)
    | [] => .ok []
    | [_] => .error (.timeZoneAdjustmentsLineMalformed s)
    | time :: offset :: rest =>
      match TimeZoneAdjustment.fromStrings time offset with
      | .error e => .error e
      | .ok adj =>
        match go rest with
        | .error e => .error e
        | .ok adjs => .ok (adj :: adjs)
  go (splitChar ' ' s)

/-- sdp.rs::Repeat. -/
structure Repeat where
  times : RepeatTimes
  timezoneAdjustments : Option (List TimeZoneAdjustment)
deriving DecidableEq, Repr

/-- sdp.rs::Attribute. -/
inductive Attribute where
  | property (value : List Char)
  | value (var value : List Char)
deriving DecidableEq, Repr

/-- Attribute::from_str. -/
def Attribute.fromStr (s : List Char) : Except Error Attribute :=
  match splitOnceChar ':' s with
  | some (v1, v2) => .ok (.value v1 v2)
  | none => .ok (.property s)

/-- sdp.rs::Kind. -/
inductive Kind where
  | video
  | audio
  | text
  | application
  | message
deriving DecidableEq, Repr

/-- Kind::from_str. -/
def Kind.fromStr (s : List Char) : Except Error Kind :=
  if s = (("video").toList) then .ok .video
  else if s = (("audio").toList) then .ok .audio
  else if s = (("text").toList) then .ok .text
  else if s = (("application").toList) then .ok .application
  else if s = (("message").toList) then .ok .message
  else .error (.kindUnknown s)

/-- sdp.rs::Protocol. -/
inductive Protocol where
  | rtpAvp
  | rtpSAvp
deriving DecidableEq, Repr

/-- Protocol::from_str. -/
def Protocol.fromStr (s : List Char) : Except Error Protocol :=
  if s = (("RTP/AVP").toList) then .ok .rtpAvp
  else if s = (("RTP/SAVP").toList) then .ok .rtpSAvp
  else .error (.protocolUnknown s)

/-- sdp.rs::Media. -/
structure Media where
  kind : Kind
  port : Nat
  protocol : Protocol
  format : Nat
deriving DecidableEq, Repr

/-- Media::from_str: kind, u16 port, protocol, usize format. -/
def Media.fromStr (s : List Char) : Except Error Media :=
  match splitChar ' ' s with
  | kind :: port :: protocol :: format :: _ =>
    match Kind.fromStr kind with
    | .error e => .error e
    | .ok k =>
      match parseU64 port with
      | some p =>
        if p < 2 ^ 16 then
          match Protocol.fromStr protocol with
          | .error e => .error e
          | .ok proto =>
            match parseU64 format with
            | some f => .ok ⟨k, p, proto, f⟩
            | none => .error (.mediaFormatInvalid s)
        else .error (.mediaPortInvalid s)
      | none => .error (.mediaPortInvalid s)
  | _ => .error (.mediaLineInvalid s)

/-- sdp.rs::MediaItem. -/
structure MediaItem where
  media : Media
  title : Option (List Char)
  connection : Option Connection
  bandwidth : List Bandwidth
  attributes : List Attribute
deriving DecidableEq, Repr

/-- sdp.rs::Sdp. -/
structure Sdp where
  version : SdpVersion
  origin : Origin
  sessionName : List Char
  sessionDescription : Option (List Char)
  uri : Option (List Char)
  email : Option (List Char)
  phone : Option (List Char)
  connection : Option Connection
  bandwidth : List Bandwidth
  timeActive : List TimeActive
  repeats : List Repeat
  attributes : List Attribute
  media : List MediaItem
deriving DecidableEq, Repr

/-- The accumulating state of the line loop of Sdp::parse. -/
structure SdpAcc where
  version : Option SdpVersion
  origin : Option Origin
  sessionName : Option (List Char)
  sessionDescription : Option (List Char)
  uri : Option (List Char)
  email : Option (List Char)
  phone : Option (List Char)
  connection : Option Connection
  bandwidth : List Bandwidth
  timeActive : List TimeActive
  repeats : List Repeat
  attributes : List Attribute
  media : List MediaItem
deriving DecidableEq, Repr

def SdpAcc.init : SdpAcc :=
  ⟨none, none, none, none, none, none, none, none, [], [], [], [], []⟩

/-- Replace the last element of a list (Vec::last_mut). -/
def updateLast {α : Type} (f : α → α) : List α → List α
  | [] => []
  | [x] => [f x]
  | x :: y :: rest => x :: updateLast f (y :: rest)

/-- One iteration of the line loop of Sdp::parse (the line is already
trimmed and non-empty). -/
def sdpParseLine (acc : SdpAcc) (line : List Char) : Except Error SdpAcc :=
  match line with
  | l0 :: '=' :: value =>
    if l0 = 'v' then
      match SdpVersion.fromStr value with
      | .error e => .error e
      | .ok v => .ok { acc with version := some v }
    else if l0 = 'o' then
      match Origin.fromStr value with
      | .error e => .error e
      | .ok o => .ok { acc with origin := some o }
    else if l0 = 's' then
      .ok { acc with sessionName := some value }
    else if l0 = 'i' then
      if acc.media ≠ [] then
        .ok { acc with media := updateLast (fun (m : MediaItem) => { m with title := some value }) acc.media }
      else .ok { acc with sessionDescription := some value }
    else if l0 = 'u' then
      .ok { acc with uri := some value }
    else if l0 = 'e' then
      .ok { acc with email := some value }
    else if l0 = 'p' then
      .ok { acc with phone := some value }
    else if l0 = 'c' then
      match Connection.fromStr value with
      | .error e => .error e
      | .ok conn =>
        if acc.media ≠ [] then
          .ok { acc with media := updateLast (fun (m : MediaItem) => { m with connection := some conn }) acc.media }
        else .ok { acc with connection := some conn }
    else if l0 = 'b' then
      match Bandwidth.fromStr value with
      | .error e => .error e
      | .ok bw =>
        if acc.media ≠ [] then
          .ok { acc with media := updateLast (fun (m : MediaItem) => { m with bandwidth := m.bandwidth ++ [bw] }) acc.media }
        else .ok { acc with bandwidth := acc.bandwidth ++ [bw] }
    else if l0 = 't' then
      match TimeActive.fromStr value with
      | .error e => .error e
      | .ok t => .ok { acc with timeActive := acc.timeActive ++ [t] }
    else if l0 = 'r' then
      match RepeatTimes.fromStr value with
      | .error e => .error e
      | .ok times => .ok { acc with repeats := acc.repeats ++ [⟨times, none⟩] }
    else if l0 = 'z' then
      if acc.repeats ≠ [] then
        match parseTimeZoneAdjustments value with
        | .error e => .error e
        | .ok adjs =>
          .ok { acc with repeats := updateLast (fun (r : Repeat) => { r with timezoneAdjustments := some adjs }) acc.repeats }
      else .error .timezoneAdjustmentsWithoutRepeatTimes
    else if l0 = 'a' then
      match Attribute.fromStr value with
      | .error e => .error e
      | .ok attr =>
        if acc.media ≠ [] then
          .ok { acc with media := updateLast (fun (m : MediaItem) => { m with attributes := m.attributes ++ [attr] }) acc.media }
        else .ok { acc with attributes := acc.attributes ++ [attr] }
    else if l0 = 'm' then
      match Media.fromStr value with
      | .error e => .error e
      | .ok med => .ok { acc with media := acc.media ++ [⟨med, none, none, [], []⟩] }
    else .error (.linePrefixInvalid line)
  | _ => .error (.linePrefixInvalid line)

/-- The line loop of Sdp::parse: trim each line, skip empty lines, reject
one-character lines, dispatch on the two-character prefix. -/
def sdpParseLines (acc : SdpAcc) : List (List Char) → Except Error SdpAcc
  | [] => .ok acc
  | line :: rest =>
    let t := trimChars line
    if t = [] then sdpParseLines acc rest
    else if t.length < 2 then .error (.linePrefixInvalid t)
    else
      match sdpParseLine acc t with
      | .error e => .error e
      | .ok acc' => sdpParseLines acc' rest

/-- Sdp::parse: split into lines, run the line loop, then validate the
required fields and the connection invariant. -/
def Sdp.parse (s : List Char) : Except Error Sdp :=
  match sdpParseLines SdpAcc.init (splitChar '\n' s) with
  | .error e => .error e
  | .ok acc =>
    match acc.version with
    | none => .error .versionMissing
    | some version =>
      match acc.origin with
      | none => .error .originMissing
      | some origin =>
        match acc.sessionName with
        | none => .error .sessionNameMissing
        | some sessionName =>
          if acc.timeActive = [] then .error .timeActiveMissing
          else if acc.connection.isNone ∧ ¬ acc.media.all (fun m => m.connection.isSome) then
            .error .connectionMissing
          else
            .ok ⟨version, origin, sessionName, acc.sessionDescription, acc.uri, acc.email,
                 acc.phone, acc.connection, acc.bandwidth, acc.timeActive, acc.repeats,
                 acc.attributes, acc.media⟩

end Sdp

end Rave

/-! ## Theorems -/

namespace Rave

namespace Rtp

/-- C5: RTP padding serialization.  The claim says a padded serialization
appends divisor − (len mod divisor) bytes, zeros except a final count byte,
and that divisor 0 is rejected with an error while the operation never
aborts.  The code aborts instead: PacketPadded::serialize asserts the
padding bit is set and then calls Packet::serialize, which asserts the
padding bit is clear, so every padded serialization panics; and for
divisor 0 calculate_padding evaluates len % 0, which also panics rather
than returning an error.  The last two conjuncts document the padding
formula of calculate_padding for a non-zero divisor. -/
theorem c5_padding_serialize_aborts :
    (Packet.withPadding ⟨⟨.version2, false, false, 96, 0, 0, 7, [], none⟩, [1, 2, 3]⟩ 4).serialize
        = .panicked ∧
    (Packet.withPadding ⟨⟨.version2, false, false, 96, 0, 0, 7, [], none⟩, [1, 2, 3]⟩ 0).serialize
        = .panicked ∧
    calculatePadding 0 15 = none ∧
    calculatePadding 4 15 = some 1 ∧ calculatePadding 4 16 = some 4 := by
  decide

end Rtp

namespace H264

open Rtp

/-- C1: H.264 access-unit round-trip.  The claim states that depacketizing
the packets produced for an access unit returns the original NAL units.
It fails: for the two-NAL access unit [[65,1],[65,2]] with MTU 80 the
mode-1 packetizer emits one aggregation packet whose payload starts
directly with the 2-byte length of the first NAL (payload_stap_a writes no
type-24 STAP-A header byte), so the depacketizer reads NAL type 0 from the
first byte and rejects the packet as unknown instead of returning the two
NAL units. -/
theorem c1_access_unit_roundtrip_fails :
    ((H264PacketizerMode1.new ⟨96, 7, [], some 80⟩ 0).packetize [[65, 1], [65, 2]] 5).2 =
      .ok [⟨⟨.version2, false, true, 96, 0, 5, 7, [], none⟩, [0, 2, 65, 1, 0, 2, 65, 2]⟩] ∧
    depacketize none
        ⟨⟨.version2, false, true, 96, 0, 5, 7, [], none⟩, [0, 2, 65, 1, 0, 2, 65, 2]⟩ =
      .error (.h264DepacketizationNalUnitTypeUnknown 0) := by
  exact ⟨rfl, rfl⟩

/-- C2: STAP-A payload layout (scenario S5).  The claim says the payload of
an aggregated packet starts with a synthesized type-24 aggregation header
and, for NALs of lengths 10, 20 and 30 with MTU 80, has length 67.  The
code emits no aggregation header byte: the single produced packet has
payload length 66 and its first byte is 0 (the high length byte), not a
type-24 header.  The marker bit is set as claimed. -/
theorem c2_stap_a_s5_payload_layout :
    ((H264PacketizerMode1.new ⟨96, 7, [], some 80⟩ 0).packetize
        [65 :: List.replicate 9 1, 65 :: List.replicate 19 2, 65 :: List.replicate 29 3] 0).2 =
      .ok [⟨⟨.version2, false, true, 96, 0, 0, 7, [], none⟩,
        [0, 10] ++ (65 :: List.replicate 9 1) ++ [0, 20] ++ (65 :: List.replicate 19 2) ++
          [0, 30] ++ (65 :: List.replicate 29 3)⟩] ∧
    ([0, 10] ++ (65 :: List.replicate 9 1) ++ [0, 20] ++ (65 :: List.replicate 19 2) ++
      [0, 30] ++ (65 :: List.replicate 29 3)).length = 66 ∧
    (([0, 10] ++ (65 :: List.replicate 9 1) ++ [0, 20] ++ (65 :: List.replicate 19 2) ++
      [0, 30] ++ (65 :: List.replicate 29 3)).headD 99) = 0 ∧
    ((0 : Nat) &&& 0x1f) ≠ 24 := by
  refine ⟨rfl, by decide, by decide, by decide⟩

/-- C3: FU-A nal_ref_idc preservation.  The claim says every fragment's
first byte carries the original nal_ref_idc bits together with type nibble
28, and that on the end fragment the depacketizer reconstructs the first
byte as the indicator's ref-idc or-ed with the header's type.  The code
computes the indicator as 28 & nal_ref_idc, which is always 0 (for the NAL
header 0x65 the fragments below all start with byte 0, not 0x7C = 0x60|28),
and the depacketizer reads the ref-idc from a value already masked with
0x1f, so a well-formed FU-A with indicator 0x7C and header 0xC5
reconstructs first byte 5 instead of 0x65 = 101. -/
theorem c3_fu_a_nal_ref_idc_lost :
    payloadFragmentedUnitA 12 15 [101, 1, 2, 3, 4] =
      [[0, 133, 1], [0, 5, 2], [0, 5, 3], [0, 69, 4]] ∧
    (28 &&& (101 &&& 0x60)) = 0 ∧ ((0x60 : Nat) ||| 28) = 124 ∧
    depacketize none ⟨⟨.version2, false, true, 96, 0, 0, 7, [], none⟩, [124, 197, 7]⟩ =
      .ok ([[5, 7]], none) ∧ (5 : Nat) ≠ 101 := by
  refine ⟨by decide, by decide, by decide, rfl, by decide⟩

end H264

namespace Sdp

/-- C4: SDP scenario S7.  The claim says the S7 session description parses
and round-trips, that dropping the c= line yields ConnectionMissing and
that adding z=0 0 without r= yields TimezoneAdjustmentsWithoutRepeatTimes.
In the code NetworkType::from_str accepts only the string IP4 while its
Display writes IN, so all three inputs already fail at the o= line with
NetworkTypeUnknown("IN"); the last conjunct shows the emit/parse mismatch
of NetworkType itself. -/
theorem c4_sdp_s7_network_type_bug :
    Sdp.parse (("v=0\no=- 0 0 IN IP4 1.2.3.4\ns=X\nc=IN IP4 1.2.3.4\nt=0 0\n").toList) =
      .error (.networkTypeUnknown (("IN").toList)) ∧
    Sdp.parse (("v=0\no=- 0 0 IN IP4 1.2.3.4\ns=X\nt=0 0\n").toList) =
      .error (.networkTypeUnknown (("IN").toList)) ∧
    Sdp.parse (("v=0\no=- 0 0 IN IP4 1.2.3.4\ns=X\nc=IN IP4 1.2.3.4\nt=0 0\nz=0 0\n").toList) =
      .error (.networkTypeUnknown (("IN").toList)) ∧
    NetworkType.fromStr (NetworkType.display .internet) =
      .error (.networkTypeUnknown (("IN").toList)) := by
  refine ⟨rfl, rfl, rfl, rfl⟩

end Sdp


namespace Rtsp

/-- Helper for C6: with a server that always redirects (with a usable
Location), the loop exhausts its fuel, issuing one request per iteration. -/
theorem clientRequestLoop_all_redirects {Loc Uri : Type}
    (server : Nat → Uri → SimResponse Loc) (rewriteUri : Uri → Loc → Option Uri)
    (hred : ∀ n u, statusCategory (server n u).status = .redirection)
    (hloc : ∀ n u, ∃ loc uri', (server n u).location = some loc ∧ rewriteUri u loc = some uri') :
    ∀ fuel counter uri, clientRequestLoop server rewriteUri fuel counter uri =
      (.error .maximumNumberOfRedirectsReached, counter + fuel) := by
  intro fuel
  induction fuel with
  | zero => intro counter uri; simp [clientRequestLoop]
  | succ fuel ih =>
    intro counter uri
    obtain ⟨loc, uri', hl, hr⟩ := hloc counter uri
    simp only [clientRequestLoop, hred counter uri, hl, hr]
    rw [ih (counter + 1) uri']
    have : counter + 1 + fuel = counter + (fuel + 1) := by omega
    rw [this]

/-- C6: redirect termination.  For every server behaviour answering each
request with a Redirection-category status and a Location that parses (the
URI rewriting succeeds), Client::request terminates with
MaximumNumberOfRedirectsReached after issuing exactly 20 requests. -/
theorem c6_redirect_termination {Loc Uri : Type}
    (server : Nat → Uri → SimResponse Loc) (rewriteUri : Uri → Loc → Option Uri)
    (hred : ∀ n u, statusCategory (server n u).status = .redirection)
    (hloc : ∀ n u, ∃ loc uri', (server n u).location = some loc ∧ rewriteUri u loc = some uri')
    (uri : Uri) :
    clientRequest server rewriteUri uri = (.error .maximumNumberOfRedirectsReached, 20) := by
  unfold clientRequest
  rw [clientRequestLoop_all_redirects server rewriteUri hred hloc 20 0 uri]

/-- C6 witness: a constant 302 server with a trivially parseable location,
evaluated to the 20-request bound. -/
theorem c6_redirect_termination_witness :
    statusCategory 302 = .redirection ∧
    clientRequest (fun (_ : Nat) (_ : Unit) => SimResponse.mk 302 (some ()))
        (fun (_ : Unit) (_ : Unit) => some ()) () =
      (.error .maximumNumberOfRedirectsReached, 20) :=
  ⟨rfl, c6_redirect_termination (fun _ _ => SimResponse.mk 302 (some ()))
    (fun _ _ => some ()) (fun _ _ => rfl) (fun _ _ => ⟨(), (), rfl, rfl⟩) ()⟩

end Rtsp

namespace H264

open Rtp

/-- Helper for C9/C2: payload_stap_a succeeds when every NAL fits in 16
bits and produces, for each NAL in order, its 2-byte big-endian length
followed by its bytes. -/
theorem payloadStapA_ok (data : List (List Nat))
    (hlen : ∀ nal ∈ data, nal.length ≤ 65535) :
    payloadStapA data = .ok ((data.map fun nal => put16 nal.length ++ nal).flatten) := by
  induction data with
  | nil => rfl
  | cons nal rest ih =>
    have h1 : nal.length ≤ 65535 := hlen nal (by simp)
    have h2 := ih (fun x hx => hlen x (by simp [hx]))
    simp only [payloadStapA, if_neg (by omega : ¬ nal.length > 65535), h2,
      List.map_cons, List.flatten_cons, List.append_assoc]

/-- C9: a mode-1 packetizer constructed without an MTU turns every
non-empty access unit (each NAL at most 65535 bytes) into exactly one RTP
packet with the marker bit set whose payload is the STAP-A-style
aggregation of all the NAL units in order (2-byte big-endian length then
NAL bytes, with no aggregation-header byte); even a single NAL unit is
aggregated rather than emitted as a Single-NAL packet. -/
theorem c9_no_mtu_single_stap_packet (params : PacketizationParameters) (seq0 : Nat)
    (hmtu : params.mtu = none) (data : List (List Nat)) (hdata : data ≠ [])
    (hlen : ∀ nal ∈ data, nal.length ≤ 65535) (ts : Nat) :
    ((H264PacketizerMode1.new params seq0).packetize data ts).2 =
      .ok [⟨⟨.version2, false, true, params.payloadType, seq0 % 2 ^ 16, ts, params.ssrc,
        params.csrc, none⟩, (data.map fun nal => put16 nal.length ++ nal).flatten⟩] ∧
    ∀ nal, data = [nal] → (data.map fun nal => put16 nal.length ++ nal).flatten ≠ nal := by
  constructor
  · simp only [H264PacketizerMode1.packetize, H264PacketizerMode1.new,
      Packetizer.fromPacketizationParameters, Packetizer.new, hmtu,
      payloadStapA_ok data hlen, Packetizer.packetize, Packet.new, Except.map]
  · intro nal hd heq
    subst hd
    have hl := congrArg List.length heq
    simp only [List.map_cons, List.map_nil, List.flatten_cons, List.flatten_nil,
      List.length_append, List.append_nil, put16, List.length_cons, List.length_nil] at hl
    omega

/-- C9 witness: one three-byte NAL, no MTU. -/
theorem c9_no_mtu_single_stap_packet_witness :
    ([[65, 1, 2]] : List (List Nat)) ≠ [] ∧
    (∀ nal ∈ ([[65, 1, 2]] : List (List Nat)), nal.length ≤ 65535) ∧
    ((H264PacketizerMode1.new ⟨96, 7, [], none⟩ 3).packetize [[65, 1, 2]] 4).2 =
      .ok [⟨⟨.version2, false, true, 96, 3, 4, 7, [], none⟩, [0, 3, 65, 1, 2]⟩] :=
  ⟨by decide, by decide,
    (c9_no_mtu_single_stap_packet ⟨96, 7, [], none⟩ 3 rfl [[65, 1, 2]] (by decide)
      (by decide) 4).1⟩

end H264



namespace Rtp

/-- Round-trip of the first serialized header byte through the bit
extractions of Header::parse. -/
theorem firstByte_roundtrip (ver : Version) (pad xflag : Bool) (c : Nat) (hc : c ≤ 15) :
    Version.tryFrom ((firstByte ver pad xflag c >>> 6) &&& 0x03) = .ok ver ∧
    decide (((firstByte ver pad xflag c >>> 5) &&& 0x01) > 0) = pad ∧
    decide (((firstByte ver pad xflag c >>> 4) &&& 0x01) > 0) = xflag ∧
    (firstByte ver pad xflag c) &&& 0x0f = c := by
  cases ver <;> cases pad <;> cases xflag <;>
    (interval_cases c <;> exact ⟨rfl, by decide, by decide, by decide⟩)

/-- Round-trip of the second serialized header byte. -/
theorem secondByte_roundtrip (pt : Nat) (hpt : pt ≤ 127) (m : Bool) :
    decide (((secondByte pt m >>> 7) &&& 0x01) > 0) = m ∧ (secondByte pt m) &&& 0x7f = pt := by
  cases m <;> (interval_cases pt <;> exact ⟨by decide, by decide⟩)

theorem flatten_put32_length (ws : List Nat) :
    ((ws.map put32).flatten).length = 4 * ws.length := by
  induction ws with
  | nil => simp
  | cons w ws ih =>
    simp only [List.map_cons, List.flatten_cons, List.length_append, ih, put32,
      List.length_cons, List.length_nil]
    omega

theorem word16_put16 (n : Nat) (h : n < 2 ^ 16) : word16 (n / 256 % 256) (n % 256) = n := by
  unfold word16
  omega

theorem word32_put32 (n : Nat) (h : n < 2 ^ 32) :
    word32 (n / 2 ^ 24 % 256) (n / 2 ^ 16 % 256) (n / 256 % 256) (n % 256) = n := by
  unfold word32
  omega

theorem takeWords_roundtrip (ws : List Nat) (hw : ∀ w ∈ ws, w < 2 ^ 32) (rest : List Nat) :
    takeWords ws.length ((ws.map put32).flatten ++ rest) = some (ws, rest) := by
  induction ws with
  | nil => simp [takeWords]
  | cons w ws ih =>
    have hwlt : w < 2 ^ 32 := hw w (by simp)
    have ih' := ih (fun x hx => hw x (by simp [hx]))
    simp only [List.map_cons, List.flatten_cons, put32, List.cons_append, List.nil_append,
      List.append_assoc, List.length_cons, takeWords, List.append_eq]
    rw [ih', word32_put32 w hwlt]

theorem takeWords_exact (ws : List Nat) (hw : ∀ w ∈ ws, w < 2 ^ 32) :
    takeWords ws.length ((ws.map put32).flatten) = some (ws, []) := by
  have := takeWords_roundtrip ws hw []
  rwa [List.append_nil] at this

/-- C8: RTP header round-trip.  For every header within the value ranges of
the wire format (at most 15 CSRC entries, 7-bit payload type, 16/32-bit
integer fields, extension of at most 65535 words), serialization succeeds,
emits exactly the fixed 12-byte big-endian layout followed by the CSRCs and
the optional extension (the byte count equals serialized_len), and parsing
the produced bytes returns exactly the original header, consuming every
byte. -/
theorem c8_rtp_header_roundtrip (h : Header) (hw : Header.Wf h) :
    ∃ bytes, Header.serialize h = .ok bytes ∧ bytes.length = h.serializedLen ∧
      Header.parse bytes = .ok (h, []) := by
  obtain ⟨ver, pad, mark, pt, seq, ts, ssrc, csrc, ext⟩ := h
  unfold Header.Wf at hw
  dsimp only at hw
  obtain ⟨hpt, hseq, hts, hssrc, hclen, hcall, hext⟩ := hw
  obtain ⟨hm, hpt7⟩ := secondByte_roundtrip pt hpt mark
  rcases ext with _ | e
  · -- no extension
    obtain ⟨hb6, hb5, hb4, hb15⟩ := firstByte_roundtrip ver pad false csrc.length hclen
    refine ⟨[firstByte ver pad false csrc.length, secondByte pt mark] ++ put16 seq ++
      put32 ts ++ put32 ssrc ++ (csrc.map put32).flatten, ?_, ?_, ?_⟩
    · simp only [Header.serialize]
      rw [if_neg (by omega : ¬ csrc.length > 255)]
      rfl
    · simp only [List.length_append, flatten_put32_length, Header.serializedLen, put16, put32,
        List.length_cons, List.length_nil]
      omega
    · simp only [put16, put32, List.cons_append, List.nil_append]
      simp only [Header.parse, List.length_cons, flatten_put32_length]
      rw [if_neg (by omega)]
      rw [hb6]
      simp only [hb5, hb4, hb15, hm, hpt7]
      rw [if_neg (by omega)]
      rw [takeWords_exact csrc hcall]
      simp only [Bool.false_eq_true, if_false]
      rw [word16_put16 seq hseq, word32_put32 ts hts, word32_put32 ssrc hssrc]
  · -- with extension
    obtain ⟨hb6, hb5, hb4, hb15⟩ := firstByte_roundtrip ver pad true csrc.length hclen
    simp only [extensionOptWf, Extension.Wf] at hext
    obtain ⟨hprof, helen, hewords⟩ := hext
    refine ⟨[firstByte ver pad true csrc.length, secondByte pt mark] ++ put16 seq ++
      put32 ts ++ put32 ssrc ++ (csrc.map put32).flatten ++
      (put16 e.profileIdentifier ++ put16 e.data.length ++ (e.data.map put32).flatten),
      ?_, ?_, ?_⟩
    · simp only [Header.serialize, Extension.serialize]
      rw [if_neg (by omega : ¬ csrc.length > 255), if_neg (by omega : ¬ e.data.length > 65535)]
      simp only [List.append_assoc]
      rfl
    · have hc4 := flatten_put32_length csrc
      have he4 := flatten_put32_length e.data
      simp only [put16, put32, List.length_append, List.length_cons, List.length_nil, hc4,
        he4, Header.serializedLen, Extension.serializedLen]
      omega
    · simp only [put16, put32, List.cons_append, List.nil_append, List.append_assoc]
      simp only [Header.parse, List.length_cons, List.length_append, flatten_put32_length]
      rw [if_neg (by omega)]
      rw [hb6]
      simp only [hb5, hb4, hb15, hm, hpt7]
      rw [if_neg (by omega)]
      rw [takeWords_roundtrip csrc hcall]
      simp only [if_true]
      rw [if_neg (by simp only [List.length_cons, List.length_append, flatten_put32_length]; omega)]
      rw [word16_put16 seq hseq, word32_put32 ts hts, word32_put32 ssrc hssrc, word16_put16 e.profileIdentifier hprof, word16_put16 e.data.length (by omega)]
      rw [if_neg (by simp only [List.length_cons, List.length_append, flatten_put32_length]; omega)]
      rw [takeWords_exact e.data hewords]

/-- C8 witness: a concrete well-formed header with two CSRCs and a one-word
extension round-trips. -/
theorem c8_rtp_header_roundtrip_witness :
    Header.Wf ⟨.version2, false, true, 96, 4660, 3735928559, 3405691582, [1, 2],
      some ⟨7, [9]⟩⟩ ∧
    ∃ bytes,
      Header.serialize ⟨.version2, false, true, 96, 4660, 3735928559, 3405691582, [1, 2],
        some ⟨7, [9]⟩⟩ = .ok bytes ∧
      bytes.length =
        Header.serializedLen ⟨.version2, false, true, 96, 4660, 3735928559, 3405691582, [1, 2],
          some ⟨7, [9]⟩⟩ ∧
      Header.parse bytes = .ok (⟨.version2, false, true, 96, 4660, 3735928559, 3405691582,
        [1, 2], some ⟨7, [9]⟩⟩, []) :=
  ⟨by decide,
    c8_rtp_header_roundtrip ⟨.version2, false, true, 96, 4660, 3735928559, 3405691582, [1, 2],
      some ⟨7, [9]⟩⟩ (by decide)⟩

end Rtp



namespace Rtsp

theorem bytesLt_irrefl (a : List Nat) : bytesLt a a = false := by
  induction a with
  | nil => rfl
  | cons x xs ih => simp [bytesLt, ih]

theorem bytesLt_total (a b : List Nat) (hne : a ≠ b) (hnlt : bytesLt a b = false) :
    bytesLt b a = true := by
  induction a generalizing b with
  | nil =>
    cases b with
    | nil => exact absurd rfl hne
    | cons y ys => simp [bytesLt] at hnlt
  | cons x xs ih =>
    cases b with
    | nil => simp [bytesLt]
    | cons y ys =>
      simp only [bytesLt] at hnlt ⊢
      rcases Nat.lt_trichotomy x y with hxy | hxy | hxy
      · simp [hxy] at hnlt
      · subst hxy
        simp only [Nat.lt_irrefl, if_false] at hnlt ⊢
        exact ih ys (fun hx => hne (by rw [hx])) hnlt
      · simp [hxy, Nat.lt_asymm hxy]

theorem bytesLt_trans (a b c : List Nat) (hab : bytesLt a b = true)
    (hbc : bytesLt b c = true) : bytesLt a c = true := by
  induction a generalizing b c with
  | nil =>
    cases c with
    | nil =>
      cases b with
      | nil => simp [bytesLt] at hab
      | cons y ys => simp [bytesLt] at hbc
    | cons z zs => simp [bytesLt]
  | cons x xs ih =>
    cases b with
    | nil => simp [bytesLt] at hab
    | cons y ys =>
      cases c with
      | nil => simp [bytesLt] at hbc
      | cons z zs =>
        simp only [bytesLt] at hab hbc ⊢
        rcases Nat.lt_trichotomy x y with hxy | hxy | hxy
        · rcases Nat.lt_trichotomy y z with hyz | hyz | hyz
          · simp [Nat.lt_trans hxy hyz]
          · subst hyz; simp [hxy]
          · simp [hyz, Nat.lt_asymm hyz] at hbc
        · subst hxy
          rcases Nat.lt_trichotomy x z with hyz | hyz | hyz
          · simp [hyz]
          · subst hyz
            simp only [Nat.lt_irrefl, if_false] at hab hbc ⊢
            exact ih ys zs hab hbc
          · simp [hyz, Nat.lt_asymm hyz] at hbc
        · simp [hxy, Nat.lt_asymm hxy] at hab

theorem headersGet_insert_self (hs : Headers) (k v : List Nat) :
    headersGet (headersInsert hs k v) k = some v := by
  induction hs with
  | nil => simp [headersInsert, headersGet]
  | cons kv rest ih =>
    obtain ⟨k', v'⟩ := kv
    by_cases hk : k = k'
    · subst hk; simp [headersInsert, headersGet]
    · simp only [headersInsert, if_neg hk]
      by_cases hlt : bytesLt k k'
      · simp [hlt, headersGet]
      · simp only [hlt, if_false, Bool.false_eq_true]
        simp only [headersGet, if_neg (fun (h : k' = k) => hk h.symm)]
        exact ih

theorem headersGet_insert_ne (hs : Headers) (k v k0 : List Nat) (hne : k ≠ k0) :
    headersGet (headersInsert hs k v) k0 = headersGet hs k0 := by
  induction hs with
  | nil => simp [headersInsert, headersGet, hne]
  | cons kv rest ih =>
    obtain ⟨k', v'⟩ := kv
    by_cases hk : k = k'
    · subst hk
      simp only [headersInsert, if_pos rfl]
      simp [headersGet, hne]
    · simp only [headersInsert, if_neg hk]
      by_cases hlt : bytesLt k k'
      · simp [hlt, headersGet, hne]
      · simp only [hlt, if_false, Bool.false_eq_true]
        simp only [headersGet, ih]

theorem headersInsert_mem (hs : Headers) (k v : List Nat)
    (x : List Nat × List Nat) (hx : x ∈ headersInsert hs k v) : x ∈ hs ∨ x = (k, v) := by
  induction hs with
  | nil =>
    simp only [headersInsert] at hx
    simp only [List.mem_singleton] at hx
    exact Or.inr hx
  | cons kv rest ih =>
    obtain ⟨k', v'⟩ := kv
    by_cases hk : k = k'
    · subst hk
      simp only [headersInsert, if_pos rfl] at hx
      rcases List.mem_cons.1 hx with h | h
      · exact Or.inr h
      · exact Or.inl (List.mem_cons_of_mem _ h)
    · simp only [headersInsert, if_neg hk] at hx
      by_cases hlt : bytesLt k k'
      · simp only [hlt, if_true] at hx
        rcases List.mem_cons.1 hx with h | h
        · exact Or.inr h
        · exact Or.inl h
      · simp only [hlt, if_false, Bool.false_eq_true] at hx
        rcases List.mem_cons.1 hx with h | h
        · exact Or.inl (by simp [h])
        · rcases ih h with h' | h'
          · exact Or.inl (List.mem_cons_of_mem _ h')
          · exact Or.inr h'

theorem headersInsert_pairwise (hs : Headers) (k v : List Nat)
    (hp : List.Pairwise (fun a b => bytesLt a.1 b.1 = true) hs) :
    List.Pairwise (fun a b => bytesLt a.1 b.1 = true) (headersInsert hs k v) := by
  induction hs with
  | nil => simp [headersInsert]
  | cons kv rest ih =>
    obtain ⟨k', v'⟩ := kv
    obtain ⟨hhead, hrest⟩ := List.pairwise_cons.1 hp
    by_cases hk : k = k'
    · subst hk
      simp only [headersInsert, if_pos rfl]
      exact List.pairwise_cons.2 ⟨hhead, hrest⟩
    · simp only [headersInsert, if_neg hk]
      by_cases hlt : bytesLt k k'
      · simp only [hlt, if_true]
        refine List.pairwise_cons.2 ⟨?_, hp⟩
        intro x hx
        rcases List.mem_cons.1 hx with h | h
        · subst h; exact hlt
        · exact bytesLt_trans _ _ _ hlt (hhead x h)
      · simp only [hlt, if_false, Bool.false_eq_true]
        refine List.pairwise_cons.2 ⟨?_, ih hrest⟩
        intro x hx
        rcases headersInsert_mem rest k v x hx with h | h
        · exact hhead x h
        · subst h
          exact bytesLt_total k k' hk (by simpa using hlt)

theorem headersGet_mem_keys (hs : Headers) (k v : List Nat)
    (h : headersGet hs k = some v) : k ∈ hs.map Prod.fst := by
  induction hs with
  | nil => simp [headersGet] at h
  | cons kv rest ih =>
    obtain ⟨k', v'⟩ := kv
    by_cases hk : k' = k
    · subst hk; simp
    · simp only [headersGet, if_neg hk] at h
      simp [ih h]

/-- The fold of the header phase over a list of header lines equals a fold
of map inserts of the extracted key/value pairs. -/
theorem processHeaderLines_eq (lines : List (List Nat)) :
    ∀ kvs : List (List Nat × List Nat), lines.map headerLineKV = kvs.map some →
    ∀ hs, processHeaderLines hs lines =
      .ok (kvs.foldl (fun m kv => headersInsert m kv.1 kv.2) hs) := by
  induction lines with
  | nil =>
    intro kvs hkv hs
    cases kvs with
    | nil => rfl
    | cons kv kvs => simp at hkv
  | cons line rest ih =>
    intro kvs hkv hs
    cases kvs with
    | nil => simp at hkv
    | cons kv kvs =>
      obtain ⟨kvar, kval⟩ := kv
      simp only [List.map_cons, List.cons.injEq] at hkv
      obtain ⟨hline, hrest⟩ := hkv
      have hne : trimBytes line ≠ [] := by
        intro ht
        simp [headerLineKV, ht] at hline
      have hok : parseHeaderBytes (trimBytes line) = .ok (kvar, kval) := by
        simp only [headerLineKV, if_neg hne] at hline
        cases hp : parseHeaderBytes (trimBytes line) with
        | ok x =>
          rw [hp] at hline
          simp only [Option.some.injEq] at hline
          rw [hline]
        | error e => rw [hp] at hline; simp at hline
      simp only [processHeaderLines, parseInnerHeadLine]
      rw [if_pos hne, hok]
      dsimp only
      rw [ih kvs hrest (headersInsert hs kvar kval)]
      simp [List.foldl_cons]

theorem foldl_insert_pairwise (kvs : List (List Nat × List Nat)) :
    ∀ hs : Headers, List.Pairwise (fun a b => bytesLt a.1 b.1 = true) hs →
      List.Pairwise (fun a b => bytesLt a.1 b.1 = true)
        (kvs.foldl (fun m kv => headersInsert m kv.1 kv.2) hs) := by
  induction kvs with
  | nil => intro hs hp; exact hp
  | cons kv kvs ih =>
    intro hs hp
    simp only [List.foldl_cons]
    exact ih _ (headersInsert_pairwise hs kv.1 kv.2 hp)

theorem foldl_insert_get (kvs : List (List Nat × List Nat)) :
    ∀ (hs : Headers) (k : List Nat),
      headersGet (kvs.foldl (fun m kv => headersInsert m kv.1 kv.2) hs) k =
        (lastVal kvs k).elim (headersGet hs k) some := by
  induction kvs with
  | nil => intro hs k; simp [lastVal]
  | cons kv kvs ih =>
    intro hs k
    obtain ⟨k', v'⟩ := kv
    simp only [List.foldl_cons]
    rw [ih]
    simp only [lastVal]
    cases hl : lastVal kvs k with
    | some v => simp
    | none =>
      simp only [Option.elim]
      by_cases hk : k' = k
      · subst hk
        simp [headersGet_insert_self]
      · simp [hk, headersGet_insert_ne hs k' v' k hk]

theorem lastVal_isSome (kvs : List (List Nat × List Nat)) (k : List Nat)
    (hk : k ∈ kvs.map Prod.fst) : (lastVal kvs k).isSome := by
  induction kvs with
  | nil => simp at hk
  | cons kv kvs ih =>
    obtain ⟨k', v'⟩ := kv
    simp only [List.map_cons, List.mem_cons] at hk
    simp only [lastVal]
    cases hl : lastVal kvs k with
    | some v => simp
    | none =>
      rcases hk with h | h
      · simp [h.symm]
      · have := ih h
        rw [hl] at this
        simp at this

/-- A strictly sorted header map binds a present key exactly once. -/
theorem countKey_eq_one (hs : Headers)
    (hp : List.Pairwise (fun a b => bytesLt a.1 b.1 = true) hs) (k : List Nat)
    (hk : k ∈ hs.map Prod.fst) : countKey hs k = 1 := by
  induction hs with
  | nil => simp at hk
  | cons kv rest ih =>
    obtain ⟨k', v'⟩ := kv
    obtain ⟨hhead, hrest⟩ := List.pairwise_cons.1 hp
    simp only [countKey, List.map_cons, List.count_cons]
    by_cases hk' : k' = k
    · subst hk'
      have hnotmem : k' ∉ rest.map Prod.fst := by
        intro hmem
        obtain ⟨x, hx, hx1⟩ := List.mem_map.1 hmem
        have hb := hhead x hx
        rw [hx1] at hb
        simp [bytesLt_irrefl] at hb
      have hz : List.count k' (rest.map Prod.fst) = 0 := List.count_eq_zero.2 hnotmem
      simp only [countKey] at ih
      simp [hz]
    · have hb : (k' == k) = false := beq_eq_false_iff_ne.2 hk'
      have hmem : k ∈ rest.map Prod.fst := by
        simp only [List.map_cons, List.mem_cons] at hk
        rcases hk with h | h
        · exact absurd h.symm hk'
        · exact h
      have := ih hrest hmem
      simp only [countKey] at this
      simp [hb, this]

/-- C10: duplicate header lines, last occurrence wins.  Processing any list
of well-formed header lines through the parser's header phase (starting
from the empty map of Parser::new) succeeds, and for every name occurring
on more than one line (indeed on at least one line) the resulting map binds
that name exactly once, to the value of the last occurrence; earlier values
are silently discarded because Headers is a map keyed on the name and
insert replaces. -/
theorem c10_duplicate_header_last_wins (lines : List (List Nat))
    (kvs : List (List Nat × List Nat)) (hkv : lines.map headerLineKV = kvs.map some)
    (k : List Nat) (hk : k ∈ kvs.map Prod.fst) :
    processHeaderLines [] lines =
      .ok (kvs.foldl (fun m kv => headersInsert m kv.1 kv.2) []) ∧
    headersGet (kvs.foldl (fun m kv => headersInsert m kv.1 kv.2) []) k = lastVal kvs k ∧
    (lastVal kvs k).isSome ∧
    countKey (kvs.foldl (fun m kv => headersInsert m kv.1 kv.2) []) k = 1 := by
  have hsome := lastVal_isSome kvs k hk
  have hget : headersGet (kvs.foldl (fun m kv => headersInsert m kv.1 kv.2) []) k =
      lastVal kvs k := by
    rw [foldl_insert_get kvs [] k]
    cases hl : lastVal kvs k with
    | some v => simp
    | none => rw [hl] at hsome; simp at hsome
  refine ⟨processHeaderLines_eq lines kvs hkv [], hget, hsome, ?_⟩
  have hp := foldl_insert_pairwise kvs [] (by simp)
  obtain ⟨v, hv⟩ := Option.isSome_iff_exists.1 hsome
  have hmem : k ∈ (kvs.foldl (fun m kv => headersInsert m kv.1 kv.2) []).map Prod.fst :=
    headersGet_mem_keys _ k v (by rw [hget, hv])
  exact countKey_eq_one _ hp k hmem

/-- C10 witness: two CSeq header lines; the map binds CSeq once, to the
value of the second line. -/
theorem c10_duplicate_header_last_wins_witness :
    ([("CSeq: 1").toList.map Char.toNat, ("CSeq: 2").toList.map Char.toNat].map headerLineKV =
      [((("CSeq").toList.map Char.toNat), (("1").toList.map Char.toNat)),
       ((("CSeq").toList.map Char.toNat), (("2").toList.map Char.toNat))].map some) ∧
    (("CSeq").toList.map Char.toNat) ∈
      ([((("CSeq").toList.map Char.toNat), (("1").toList.map Char.toNat)),
        ((("CSeq").toList.map Char.toNat), (("2").toList.map Char.toNat))].map Prod.fst) ∧
    (processHeaderLines [] [("CSeq: 1").toList.map Char.toNat, ("CSeq: 2").toList.map Char.toNat] =
      .ok ([((("CSeq").toList.map Char.toNat), (("1").toList.map Char.toNat)),
            ((("CSeq").toList.map Char.toNat), (("2").toList.map Char.toNat))].foldl
        (fun m kv => headersInsert m kv.1 kv.2) []) ∧
     headersGet ([((("CSeq").toList.map Char.toNat), (("1").toList.map Char.toNat)),
            ((("CSeq").toList.map Char.toNat), (("2").toList.map Char.toNat))].foldl
        (fun m kv => headersInsert m kv.1 kv.2) []) (("CSeq").toList.map Char.toNat) =
       lastVal [((("CSeq").toList.map Char.toNat), (("1").toList.map Char.toNat)),
            ((("CSeq").toList.map Char.toNat), (("2").toList.map Char.toNat))]
         (("CSeq").toList.map Char.toNat) ∧
     (lastVal [((("CSeq").toList.map Char.toNat), (("1").toList.map Char.toNat)),
            ((("CSeq").toList.map Char.toNat), (("2").toList.map Char.toNat))]
         (("CSeq").toList.map Char.toNat)).isSome ∧
     countKey ([((("CSeq").toList.map Char.toNat), (("1").toList.map Char.toNat)),
            ((("CSeq").toList.map Char.toNat), (("2").toList.map Char.toNat))].foldl
        (fun m kv => headersInsert m kv.1 kv.2) []) (("CSeq").toList.map Char.toNat) = 1) :=
  ⟨by decide, by decide,
    c10_duplicate_header_last_wins
      [("CSeq: 1").toList.map Char.toNat, ("CSeq: 2").toList.map Char.toNat]
      [((("CSeq").toList.map Char.toNat), (("1").toList.map Char.toNat)),
       ((("CSeq").toList.map Char.toNat), (("2").toList.map Char.toNat))]
      (by decide) (("CSeq").toList.map Char.toNat) (by decide)⟩

end Rtsp



namespace Rtsp

/-- Appending bytes does not change an already complete line: the position
of the first terminator is stable under extension of the buffer. -/
theorem readLine_append (b : List Nat) :
    ∀ (c l r : List Nat), readLine b = some (l, r) →
      readLine (b ++ c) = some (l, r ++ c) := by
  induction b with
  | nil => intro c l r h; simp [readLine] at h
  | cons x xs ih =>
    intro c l r h
    cases xs with
    | nil =>
      simp only [readLine] at h
      by_cases hx : x = LN
      · rw [if_pos hx] at h
        simp only [Option.some.injEq, Prod.mk.injEq] at h
        obtain ⟨hl, hr⟩ := h
        subst hl
        subst hr
        subst hx
        cases c with
        | nil => simp [readLine]
        | cons y ys => simp [readLine, LN, CR]
      · rw [if_neg hx] at h
        simp at h
    | cons y ys =>
      simp only [readLine] at h
      simp only [List.cons_append, readLine]
      by_cases h1 : x = CR ∧ y = LN
      · rw [if_pos h1] at h
        rw [if_pos h1]
        simp only [Option.some.injEq, Prod.mk.injEq] at h
        obtain ⟨hl, hr⟩ := h
        subst hl
        subst hr
        rfl
      · rw [if_neg h1] at h
        rw [if_neg h1]
        by_cases h2 : x = CR ∨ x = LN
        · rw [if_pos h2] at h
          rw [if_pos h2]
          simp only [Option.some.injEq, Prod.mk.injEq] at h
          obtain ⟨hl, hr⟩ := h
          subst hl
          subst hr
          rfl
        · rw [if_neg h2] at h
          rw [if_neg h2]
          cases hr0 : readLine (y :: ys) with
          | none => rw [hr0] at h; simp at h
          | some p =>
            obtain ⟨l0, r0⟩ := p
            rw [hr0] at h
            simp only [Option.some.injEq, Prod.mk.injEq] at h
            obtain ⟨hl, hrr⟩ := h
            subst hl
            subst hrr
            have hext := ih c l0 r0 hr0
            simp only [List.cons_append] at hext
            simp only [List.append_eq]
            rw [hext]

/-- A complete line consumes at least one byte of the buffer. -/
theorem readLine_length (b : List Nat) :
    ∀ l r, readLine b = some (l, r) → r.length < b.length := by
  induction b with
  | nil => intro l r h; simp [readLine] at h
  | cons x xs ih =>
    intro l r h
    cases xs with
    | nil =>
      simp only [readLine] at h
      by_cases hx : x = LN
      · rw [if_pos hx] at h
        simp only [Option.some.injEq, Prod.mk.injEq] at h
        obtain ⟨hl, hr⟩ := h
        subst hr
        simp
      · rw [if_neg hx] at h
        simp at h
    | cons y ys =>
      simp only [readLine] at h
      by_cases h1 : x = CR ∧ y = LN
      · rw [if_pos h1] at h
        simp only [Option.some.injEq, Prod.mk.injEq] at h
        obtain ⟨hl, hr⟩ := h
        subst hr
        simp only [List.length_cons]
        omega
      · rw [if_neg h1] at h
        by_cases h2 : x = CR ∨ x = LN
        · rw [if_pos h2] at h
          simp only [Option.some.injEq, Prod.mk.injEq] at h
          obtain ⟨hl, hr⟩ := h
          subst hr
          simp only [List.length_cons]
          omega
        · rw [if_neg h2] at h
          cases hr0 : readLine (y :: ys) with
          | none => rw [hr0] at h; simp at h
          | some p =>
            obtain ⟨l0, r0⟩ := p
            rw [hr0] at h
            simp only [Option.some.injEq, Prod.mk.injEq] at h
            obtain ⟨hl, hrr⟩ := h
            subst hrr
            have := ih l0 r0 hr0
            simp only [List.length_cons] at this ⊢
            omega

/-- The head loop does not depend on the fuel once the fuel exceeds the
buffer length. -/
theorem headLoop_fuel {μ : Type} (pm : List Nat → Except RtspError μ) :
    ∀ (f1 f2 : Nat) (m : Option μ) (hs : Headers) (h : HeadSt) (b : List Nat),
      b.length < f1 → b.length < f2 →
      headLoop pm f1 m hs h b = headLoop pm f2 m hs h b := by
  intro f1
  induction f1 with
  | zero => intro f2 m hs h b h1 h2; exact absurd h1 (Nat.not_lt_zero _)
  | succ f1 ih =>
    intro f2 m hs h b h1 h2
    cases f2 with
    | zero => exact absurd h2 (Nat.not_lt_zero _)
    | succ f2 =>
      simp only [headLoop]
      by_cases hh : h = HeadSt.headDone
      · simp [hh]
      · simp only [if_neg hh]
        cases hr : readLine b with
        | none => rfl
        | some p =>
          obtain ⟨line, rest⟩ := p
          by_cases hu : utf8Valid line
          · simp only [hu, if_true]
            cases hp : parseInnerHeadLine pm m hs line h with
            | error e => rfl
            | ok t =>
              obtain ⟨m1, hs1, h1⟩ := t
              have hlen := readLine_length b line rest hr
              exact ih f2 m1 hs1 h1 rest (by omega) (by omega)
          · simp only [hu]
            rfl

end Rtsp



namespace Rtsp

/-- Extending the buffer of the head loop: a finished head keeps its result
(with the extension appended to the leftover), a stuck head continues from
the stuck state on the extended leftover, and an error stays the same
error. -/
theorem headLoop_append {μ : Type} (pm : List Nat → Except RtspError μ) :
    ∀ (fuel : Nat) (m : Option μ) (hs : Headers) (h : HeadSt) (b c : List Nat),
      b.length < fuel →
      ((∀ m' hs' h' rest, headLoop pm fuel m hs h b = .ok (m', hs', h', rest) →
          (h' = .headDone →
            headLoop pm (b.length + c.length + 1) m hs h (b ++ c) =
              .ok (m', hs', h', rest ++ c)) ∧
          (h' ≠ .headDone →
            headLoop pm (b.length + c.length + 1) m hs h (b ++ c) =
              headLoop pm (rest.length + c.length + 1) m' hs' h' (rest ++ c))) ∧
        (∀ e, headLoop pm fuel m hs h b = .error e →
          headLoop pm (b.length + c.length + 1) m hs h (b ++ c) = .error e)) := by
  intro fuel
  induction fuel with
  | zero => intro m hs h b c hb; exact absurd hb (Nat.not_lt_zero _)
  | succ f ih =>
    intro m hs h b c hb
    by_cases hh : h = HeadSt.headDone
    · subst hh
      constructor
      · intro m' hs' h' rest hok
        simp only [headLoop] at hok
        rw [if_pos trivial] at hok
        simp only [Except.ok.injEq, Prod.mk.injEq] at hok
        obtain ⟨hm, hhs, hh', hrest⟩ := hok
        subst hm
        subst hhs
        subst hh'
        subst hrest
        constructor
        · intro _
          simp only [headLoop]
          rw [if_pos trivial]
        · intro hne
          exact absurd rfl hne
      · intro e herr
        simp only [headLoop] at herr
        rw [if_pos trivial] at herr
        exact absurd herr (by simp)
    · cases hr : readLine b with
      | none =>
        constructor
        · intro m' hs' h' rest hok
          simp only [headLoop, if_neg hh, hr] at hok
          simp only [Except.ok.injEq, Prod.mk.injEq] at hok
          obtain ⟨hm, hhs, hh', hrest⟩ := hok
          subst hm
          subst hhs
          subst hh'
          subst hrest
          constructor
          · intro hd
            exact absurd hd hh
          · intro _
            rfl
        · intro e herr
          simp only [headLoop, if_neg hh, hr] at herr
          exact absurd herr (by simp)
      | some p =>
        obtain ⟨line, rest0⟩ := p
        have hrext : readLine (b ++ c) = some (line, rest0 ++ c) :=
          readLine_append b c line rest0 hr
        have hlen : rest0.length < b.length := readLine_length b line rest0 hr
        cases hu : utf8Valid line with
        | false =>
          constructor
          · intro m' hs' h' rest hok
            simp only [headLoop, if_neg hh, hr, hu, Bool.false_eq_true, if_false] at hok
            exact absurd hok (by simp)
          · intro e herr
            simp only [headLoop, if_neg hh, hr, hu, Bool.false_eq_true, if_false] at herr
            simp only [Except.error.injEq] at herr
            subst herr
            simp only [headLoop, if_neg hh, hrext, hu, Bool.false_eq_true, if_false]
        | true =>
          cases hp : parseInnerHeadLine pm m hs line h with
          | error e0 =>
            constructor
            · intro m' hs' h' rest hok
              simp only [headLoop, if_neg hh, hr, hu, if_true, hp] at hok
              exact absurd hok (by simp)
            · intro e herr
              simp only [headLoop, if_neg hh, hr, hu, if_true, hp] at herr
              simp only [Except.error.injEq] at herr
              subst herr
              simp only [headLoop, if_neg hh, hrext, hu, if_true, hp]
          | ok t =>
            obtain ⟨m1, hs1, h1⟩ := t
            have hfuel1 : rest0.length < f := by omega
            obtain ⟨ihok, iherr⟩ := ih m1 hs1 h1 rest0 c hfuel1
            have hfa : (rest0 ++ c).length < b.length + c.length := by
              simp only [List.length_append]
              omega
            have hfb : (rest0 ++ c).length < rest0.length + c.length + 1 := by
              simp only [List.length_append]
              omega
            constructor
            · intro m' hs' h' rest hok
              simp only [headLoop, if_neg hh, hr, hu, if_true, hp] at hok
              obtain ⟨hdone, hstuck⟩ := ihok m' hs' h' rest hok
              constructor
              · intro hd
                have hext := hdone hd
                simp only [headLoop, if_neg hh, hrext, hu, if_true, hp]
                rw [headLoop_fuel pm (b.length + c.length) (rest0.length + c.length + 1)
                  m1 hs1 h1 (rest0 ++ c) hfa hfb]
                exact hext
              · intro hnd
                have hext := hstuck hnd
                simp only [headLoop, if_neg hh, hrext, hu, if_true, hp]
                rw [headLoop_fuel pm (b.length + c.length) (rest0.length + c.length + 1)
                  m1 hs1 h1 (rest0 ++ c) hfa hfb]
                exact hext
            · intro e herr
              simp only [headLoop, if_neg hh, hr, hu, if_true, hp] at herr
              have hext := iherr e herr
              simp only [headLoop, if_neg hh, hrext, hu, if_true, hp]
              rw [headLoop_fuel pm (b.length + c.length) (rest0.length + c.length + 1)
                m1 hs1 h1 (rest0 ++ c) hfa hfb]
              exact hext

end Rtsp



namespace Rtsp

/-- A Hungry parse call composes: feeding more bytes is the same as one
call on the extended buffer from the stored state and leftover. -/
theorem parseCall_append_hungry {μ : Type} (pm : List Nat → Except RtspError μ)
    (p p' : Parser μ) (b rest c : List Nat)
    (h : parseCall pm p b = .ok (p', .hungry, rest)) :
    parseCall pm p (b ++ c) = parseCall pm p' (rest ++ c) := by
  obtain ⟨st, m0, hs0, body0⟩ := p
  cases st with
  | bodyComplete => simp [parseCall] at h
  | bodyIncomplete =>
    simp only [parseCall, bodyStep] at h
    cases hf : findContentLength hs0 with
    | error e => rw [hf] at h; simp at h
    | ok o =>
      cases o with
      | none => rw [hf] at h; simp at h
      | some need =>
        rw [hf] at h
        simp only at h
        by_cases hle : need ≤ b.length
        · rw [if_pos hle] at h
          simp at h
        · rw [if_neg hle] at h
          simp only [Except.ok.injEq, Prod.mk.injEq] at h
          obtain ⟨hp', _, hrest⟩ := h
          subst hp'
          subst hrest
          rfl
  | head h0 =>
    simp only [parseCall] at h
    cases hl : headLoop pm (b.length + 1) m0 hs0 h0 b with
    | error e => rw [hl] at h; simp at h
    | ok t =>
      obtain ⟨m1, hs1, h1, rest1⟩ := t
      rw [hl] at h
      simp only at h
      obtain ⟨hA, _⟩ := headLoop_append pm (b.length + 1) m0 hs0 h0 b c (by omega)
      obtain ⟨hdone, hstuck⟩ := hA m1 hs1 h1 rest1 hl
      by_cases hd : h1 = HeadSt.headDone
      · rw [if_pos hd] at h
        by_cases hcl : headersContains hs1 contentLengthKey
        · rw [if_pos hcl] at h
          simp only [bodyStep] at h
          cases hf : findContentLength hs1 with
          | error e => rw [hf] at h; simp at h
          | ok o =>
            cases o with
            | none => rw [hf] at h; simp at h
            | some need =>
              rw [hf] at h
              simp only at h
              by_cases hle : need ≤ rest1.length
              · rw [if_pos hle] at h
                simp at h
              · rw [if_neg hle] at h
                simp only [Except.ok.injEq, Prod.mk.injEq] at h
                obtain ⟨hp', _, hrest⟩ := h
                subst hp'
                subst hrest
                simp only [parseCall, List.length_append]
                rw [hdone hd]
                simp only [if_pos hd, if_pos hcl]
        · rw [if_neg hcl] at h
          simp at h
      · rw [if_neg hd] at h
        simp only [Except.ok.injEq, Prod.mk.injEq] at h
        obtain ⟨hp', _, hrest⟩ := h
        subst hp'
        subst hrest
        simp only [parseCall, List.length_append]
        rw [hstuck hd]

/-- A Done parse call composes: further bytes are left unconsumed. -/
theorem parseCall_append_done {μ : Type} (pm : List Nat → Except RtspError μ)
    (p p' : Parser μ) (b rest c : List Nat)
    (h : parseCall pm p b = .ok (p', .done, rest)) :
    parseCall pm p (b ++ c) = .ok (p', .done, rest ++ c) := by
  obtain ⟨st, m0, hs0, body0⟩ := p
  cases st with
  | bodyComplete => simp [parseCall] at h
  | bodyIncomplete =>
    simp only [parseCall, bodyStep] at h
    cases hf : findContentLength hs0 with
    | error e => rw [hf] at h; simp at h
    | ok o =>
      cases o with
      | none => rw [hf] at h; simp at h
      | some need =>
        rw [hf] at h
        simp only at h
        by_cases hle : need ≤ b.length
        · rw [if_pos hle] at h
          simp only [Except.ok.injEq, Prod.mk.injEq] at h
          obtain ⟨hp', _, hrest⟩ := h
          simp only [parseCall, bodyStep]
          rw [hf]
          simp only
          rw [if_pos (by simp only [List.length_append]; omega : need ≤ (b ++ c).length)]
          rw [List.take_append_of_le_length hle, List.drop_append_of_le_length hle]
          rw [← hrest]
          rw [← hp']
        · rw [if_neg hle] at h
          simp at h
  | head h0 =>
    simp only [parseCall] at h
    cases hl : headLoop pm (b.length + 1) m0 hs0 h0 b with
    | error e => rw [hl] at h; simp at h
    | ok t =>
      obtain ⟨m1, hs1, h1, rest1⟩ := t
      rw [hl] at h
      simp only at h
      obtain ⟨hA, _⟩ := headLoop_append pm (b.length + 1) m0 hs0 h0 b c (by omega)
      obtain ⟨hdone, hstuck⟩ := hA m1 hs1 h1 rest1 hl
      by_cases hd : h1 = HeadSt.headDone
      · rw [if_pos hd] at h
        by_cases hcl : headersContains hs1 contentLengthKey
        · rw [if_pos hcl] at h
          simp only [bodyStep] at h
          cases hf : findContentLength hs1 with
          | error e => rw [hf] at h; simp at h
          | ok o =>
            cases o with
            | none => rw [hf] at h; simp at h
            | some need =>
              rw [hf] at h
              simp only at h
              by_cases hle : need ≤ rest1.length
              · rw [if_pos hle] at h
                simp only [Except.ok.injEq, Prod.mk.injEq] at h
                obtain ⟨hp', _, hrest⟩ := h
                simp only [parseCall, List.length_append]
                rw [hdone hd]
                simp only [if_pos hd, if_pos hcl, bodyStep]
                rw [hf]
                simp only
                rw [if_pos (by simp only [List.length_append]; omega : need ≤ (rest1 ++ c).length)]
                rw [List.take_append_of_le_length hle, List.drop_append_of_le_length hle]
                rw [← hrest]
                rw [← hp']
              · rw [if_neg hle] at h
                simp at h
        · rw [if_neg hcl] at h
          simp only [Except.ok.injEq, Prod.mk.injEq] at h
          obtain ⟨hp', _, hrest⟩ := h
          simp only [parseCall, List.length_append]
          rw [hdone hd]
          simp only [if_pos hd, if_neg hcl]
          rw [← hrest]
          rw [← hp']
      · rw [if_neg hd] at h
        simp at h

/-- An erroring parse call errors identically on any extension. -/
theorem parseCall_append_error {μ : Type} (pm : List Nat → Except RtspError μ)
    (p : Parser μ) (b c : List Nat) (e : RtspError)
    (h : parseCall pm p b = .error e) :
    parseCall pm p (b ++ c) = .error e := by
  obtain ⟨st, m0, hs0, body0⟩ := p
  cases st with
  | bodyComplete => simpa [parseCall] using h
  | bodyIncomplete =>
    simp only [parseCall, bodyStep] at h
    cases hf : findContentLength hs0 with
    | error e0 =>
      rw [hf] at h
      simp only [Except.error.injEq] at h
      subst h
      simp only [parseCall, bodyStep]
      rw [hf]
    | ok o =>
      cases o with
      | none =>
        rw [hf] at h
        simp only [Except.error.injEq] at h
        subst h
        simp only [parseCall, bodyStep]
        rw [hf]
      | some need =>
        rw [hf] at h
        simp only at h
        by_cases hle : need ≤ b.length
        · rw [if_pos hle] at h; simp at h
        · rw [if_neg hle] at h; simp at h
  | head h0 =>
    simp only [parseCall] at h
    cases hl : headLoop pm (b.length + 1) m0 hs0 h0 b with
    | error e0 =>
      rw [hl] at h
      simp only [Except.error.injEq] at h
      subst h
      obtain ⟨_, hB⟩ := headLoop_append pm (b.length + 1) m0 hs0 h0 b c (by omega)
      simp only [parseCall, List.length_append]
      rw [hB e0 hl]
    | ok t =>
      obtain ⟨m1, hs1, h1, rest1⟩ := t
      rw [hl] at h
      simp only at h
      obtain ⟨hA, _⟩ := headLoop_append pm (b.length + 1) m0 hs0 h0 b c (by omega)
      obtain ⟨hdone, hstuck⟩ := hA m1 hs1 h1 rest1 hl
      by_cases hd : h1 = HeadSt.headDone
      · rw [if_pos hd] at h
        by_cases hcl : headersContains hs1 contentLengthKey
        · rw [if_pos hcl] at h
          simp only [bodyStep] at h
          cases hf : findContentLength hs1 with
          | error e0 =>
            rw [hf] at h
            simp only [Except.error.injEq] at h
            subst h
            simp only [parseCall, List.length_append]
            rw [hdone hd]
            simp only [if_pos hd, if_pos hcl, bodyStep]
            rw [hf]
          | ok o =>
            cases o with
            | none =>
              rw [hf] at h
              simp only [Except.error.injEq] at h
              subst h
              simp only [parseCall, List.length_append]
              rw [hdone hd]
              simp only [if_pos hd, if_pos hcl, bodyStep]
              rw [hf]
            | some need =>
              rw [hf] at h
              simp only at h
              by_cases hle : need ≤ rest1.length
              · rw [if_pos hle] at h; simp at h
              · rw [if_neg hle] at h; simp at h
        · rw [if_neg hcl] at h
          simp at h
      · rw [if_neg hd] at h
        simp at h

/-- Unfolding equation of runChunksAux on a cons of chunks. -/
theorem runChunksAux_cons {μ : Type} (pm : List Nat → Except RtspError μ)
    (p : Parser μ) (l ch : List Nat) (rest : List (List Nat)) :
    runChunksAux pm p l (ch :: rest) =
      match parseCall pm p (l ++ ch) with
      | .error e => .error e
      | .ok (p', status, leftover) =>
        match runChunksAux pm p' leftover rest with
        | .error e => .error e
        | .ok (statuses, pf, lf) => .ok (status :: statuses, pf, lf) := rfl

/-- Feeding any nonempty-chunk partition of the tail of a message to a
parser state equivalent to a fresh parser on the already-consumed prefix
yields Hungry on every chunk but the last, Done on the last, the same final
parser the whole message yields at once, and an empty leftover. -/
theorem runChunksAux_spec {μ : Type} (pm : List Nat → Except RtspError μ)
    (B : List Nat) (pf : Parser μ)
    (hB : parseCall pm Parser.new B = .ok (pf, .done, [])) :
    ∀ (chunks : List (List Nat)) (p : Parser μ) (l A : List Nat),
      chunks ≠ [] → (∀ ch ∈ chunks, ch ≠ []) →
      A ++ chunks.flatten = B →
      (∀ t, parseCall pm p (l ++ t) = parseCall pm Parser.new (A ++ t)) →
      runChunksAux pm p l chunks =
        .ok (List.replicate (chunks.length - 1) .hungry ++ [.done], pf, []) := by
  intro chunks
  induction chunks with
  | nil => intro p l A hne _ _ _; exact absurd rfl hne
  | cons ch rest ih =>
    intro p l A _ hch hflat hinv
    have hfeed : parseCall pm p (l ++ ch) = parseCall pm Parser.new (A ++ ch) := hinv ch
    cases rest with
    | nil =>
      have hACB : A ++ ch = B := by simpa using hflat
      rw [hACB, hB] at hfeed
      rw [runChunksAux_cons, hfeed]
      simp [runChunksAux]
    | cons r rs =>
      have hrne : r ≠ [] := hch r (by simp)
      have hR : (A ++ ch) ++ (r :: rs).flatten = B := by
        rw [List.append_assoc]
        simpa [List.flatten_cons] using hflat
      have hRne : (r :: rs).flatten ≠ [] := by
        cases r with
        | nil => exact absurd rfl hrne
        | cons x xs => simp [List.flatten_cons]
      cases hcall : parseCall pm Parser.new (A ++ ch) with
      | error e =>
        have hext := parseCall_append_error pm Parser.new (A ++ ch) ((r :: rs).flatten) e hcall
        rw [hR, hB] at hext
        exact absurd hext (by simp)
      | ok result =>
        obtain ⟨pMid, s, rest1⟩ := result
        cases s with
        | done =>
          have hext := parseCall_append_done pm Parser.new pMid (A ++ ch) rest1
            ((r :: rs).flatten) hcall
          rw [hR, hB] at hext
          simp only [Except.ok.injEq, Prod.mk.injEq] at hext
          have h0 := hext.2.2.symm
          rw [List.append_eq_nil] at h0
          exact absurd h0.2 hRne
        | hungry =>
          have hnext : ∀ t, parseCall pm pMid (rest1 ++ t) =
              parseCall pm Parser.new ((A ++ ch) ++ t) := by
            intro t
            exact (parseCall_append_hungry pm Parser.new pMid (A ++ ch) rest1 t hcall).symm
          have hch2 : ∀ x ∈ r :: rs, x ≠ [] := fun x hx => hch x (List.mem_cons_of_mem ch hx)
          have hrec := ih pMid rest1 (A ++ ch) (by simp) hch2 hR hnext
          rw [runChunksAux_cons, hfeed, hcall]
          simp only
          rw [hrec]
          simp only [List.length_cons, Nat.add_sub_cancel, List.replicate_succ, List.cons_append]

/-- C7: RTSP chunk-invariance.  Let B be the serialized bytes of a
syntactically valid message, i.e. a fresh Parser::parse run on all of B at
once returns Done with final parser pf and an empty leftover.  Then for
every partition of B into consecutive nonempty chunks, feeding the chunks
incrementally (leftover bytes kept in the buffer, as the callers of
Parser::parse do) returns Hungry on every call but the last and Done on the
last, with the same extracted parser pf and nothing left in the buffer; and
the parser never consumes beyond the message: on any buffer B ++ t the same
call returns Done with exactly the trailing bytes t unconsumed. -/
theorem c7_rtsp_chunk_invariance {μ : Type} (pm : List Nat → Except RtspError μ)
    (B : List Nat) (pf : Parser μ)
    (hB : parseCall pm Parser.new B = .ok (pf, .done, []))
    (chunks : List (List Nat))
    (hne : chunks ≠ []) (hch : ∀ ch ∈ chunks, ch ≠ [])
    (hflat : chunks.flatten = B) :
    runChunks pm chunks =
      .ok (List.replicate (chunks.length - 1) .hungry ++ [.done], pf, []) ∧
    ∀ t, parseCall pm Parser.new (B ++ t) = .ok (pf, .done, t) := by
  constructor
  · exact runChunksAux_spec pm B pf hB chunks Parser.new [] [] hne hch
      (by simpa using hflat) (fun t => rfl)
  · intro t
    have h := parseCall_append_done pm Parser.new pf B [] t hB
    simpa using h

/-- C7 witness: the concrete message cMsg split into two chunks inside the
header line parses to the same final parser as the whole message at once,
with one Hungry and one Done, and a trailing byte is left unconsumed. -/
theorem c7_rtsp_chunk_invariance_witness :
    runChunks cMeta cChunks =
      .ok (List.replicate (cChunks.length - 1) ParseStatus.hungry ++ [ParseStatus.done],
        cFinal, []) ∧
    parseCall cMeta Parser.new (cMsg ++ [0]) = .ok (cFinal, ParseStatus.done, [0]) :=
  have h := c7_rtsp_chunk_invariance cMeta cMsg cFinal (by rfl) cChunks
    (by simp [cChunks]) (by decide) (by rfl)
  ⟨h.1, h.2 [0]⟩

end Rtsp


end Rave
